import Mathlib

/-!
Verification of the leave-ledger core of the `buidco-db` employee
leave-management backend.

The definitions below are a shallow embedding of the route handlers of the
Postgres server variant (the large unnamed server source; the SQL Server
variant `index.cjs` implements the same logic for the routes treated here):

* `submitLeave`          — `POST /api/leaves`
* `approveLeave`         — `PATCH /api/leaves/:id/approve`
* `rejectLeave`          — `PATCH /api/leaves/:id/reject`
* `cancelLeave`          — `PATCH /api/leaves/:id/cancel`
* `requestCancellation`  — `POST /api/leaves/:id/request-cancellation`
* `approveCancellation`  — `POST /api/leaves/:id/approve-cancellation`
* `rejectCancellation`   — `POST /api/leaves/:id/reject-cancellation`
* `cancelApproved`       — `POST /api/leaves/cancel-approved`

Modelling conventions:
* SQL rows become Lean structures; SQL NULL on text columns becomes the
  empty string (matching the handlers' `(x || '')` treatment), NULL on
  date columns becomes `Option`.
* JavaScript dates are integer Unix-epoch milliseconds (`Int`).
* `SELECT ... WHERE k = v` is `List.find?`; `UPDATE ... WHERE p` updates
  every matching row (`updateWhere`), exactly as SQL does.
* Each handler is a pure function from the database to `Except` of the
  new database.  A handler that runs inside a transaction (approve,
  cancel) rolls back on error, and in the remaining handlers every error
  return precedes the first write, so in both cases an `error` result
  leaves the database untouched; the `Except`-returning shape encodes
  that.  `submitLeave` is the exception: its two INSERTs are separate
  autocommitted `pool.query` calls with no transaction, so it is modelled
  with explicit success flags for the two writes and returns the database
  it actually left behind together with the result.
-/

namespace Buidco

/-- One row of the `employees` table (the columns the leave ledger reads). -/
structure Employee where
  employee_id : String
  full_name : String
  designation : String
  profile_photo : Option String
  status : String
  cl_balance : Int
  el_balance : Int
  rh_balance : Int
deriving Repr, DecidableEq

/-- One row of the `leaves` table. -/
structure Leave where
  id : Nat
  employee_id : String
  employee_name : String
  type : String
  start_date : Option Int
  end_date : Option Int
  days : Int
  reason : String
  status : String
  applied_on : Int
  location : String
  designation : String
  remarks : String
  cancel_request_status : String
  cancel_reason : String
  approved_date : Option Int
  rejected_date : Option Int
  cancelled_date : Option Int
deriving Repr, DecidableEq

/-- One row of the `notifications` table.  `user_id = none` is the NULL
broadcast recipient. -/
structure Notification where
  type : String
  message : String
  user_id : Option String
  sender_id : String
  sender_name : String
  sender_photo : Option String
  created_at : Int
deriving Repr, DecidableEq

/-- The database state seen by the leave ledger.  `nextId` models the
`leaves.id` SERIAL sequence. -/
structure DB where
  employees : List Employee
  leaves : List Leave
  notifications : List Notification
  nextId : Nat
deriving Repr, DecidableEq

/-- The three balance columns of `employees`. -/
inductive BalCol where
  | cl
  | el
  | rh
deriving Repr, DecidableEq

/-- Error taxonomy of the handlers (one constructor per distinct error
response of the embedded routes). -/
inductive LeaveError where
  | notFound
  | employeeNotFound
  | designationMissing
  | alreadyApproved
  | invalidLeaveType
  | insufficientBalance
  | alreadyCancelled
  | onlyApprovedCancellable
  | cancellationAlreadyRequested
  | noPendingCancellation
  | notApprovedOrMissing
  | noApprovedDate
  | windowExpired
  | alreadyStarted
  | missingFields
  | storeFailure
deriving Repr, DecidableEq

/-- Read a balance column of an employee row. -/
def Employee.getBal (e : Employee) : BalCol → Int
  | .cl => e.cl_balance
  | .el => e.el_balance
  | .rh => e.rh_balance

/-- The `UPDATE employees SET col = col - d` write for one row. -/
def Employee.debit (e : Employee) (c : BalCol) (d : Int) : Employee :=
  match c with
  | .cl => { e with cl_balance := e.cl_balance - d }
  | .el => { e with el_balance := e.el_balance - d }
  | .rh => { e with rh_balance := e.rh_balance - d }

/-- The `UPDATE employees SET col = col + d` write for one row. -/
def Employee.credit (e : Employee) (c : BalCol) (d : Int) : Employee :=
  match c with
  | .cl => { e with cl_balance := e.cl_balance + d }
  | .el => { e with el_balance := e.el_balance + d }
  | .rh => { e with rh_balance := e.rh_balance + d }

/-- JavaScript `toLowerCase()` (modelled characterwise; the statuses the
handlers compare are ASCII). -/
def strLower (s : String) : String := ⟨s.data.map Char.toLower⟩

/-- JavaScript `toUpperCase()`. -/
def strUpper (s : String) : String := ⟨s.data.map Char.toUpper⟩

/-- Whitespace stripped by JavaScript `trim()`. -/
def isJsWS (c : Char) : Bool := c == ' ' || c == '\t' || c == '\n' || c == '\r'

/-- JavaScript `trim()`. -/
def strTrim (s : String) : String :=
  ⟨((s.data.dropWhile isJsWS).reverse.dropWhile isJsWS).reverse⟩

/-- The approve handler's balance-column map
`{'CL':'cl_balance','EL':'el_balance','RH':'rh_balance'}[type]` (also the
exact-match `switch` of the direct-cancel handler, whose cases are the
same three strings). -/
def balanceColumn (t : String) : Option BalCol :=
  if t == "CL" then some .cl
  else if t == "EL" then some .el
  else if t == "RH" then some .rh
  else none

/-- The `switch ((leave.type || '').toUpperCase())` balance-column map of
the approve-cancellation and cancel-approved handlers. -/
def balanceColumnUpper (t : String) : Option BalCol :=
  balanceColumn (strUpper t)

/-- An `UPDATE ... WHERE p` over a list of rows: every matching row is
rewritten by `f`. -/
def updateWhere {α : Type} (p : α → Bool) (f : α → α) (xs : List α) : List α :=
  xs.map fun x => if p x then f x else x

/-- The `SET status = 'Approved', approved_date = NOW()` clause. -/
def setApproved (now : Int) (l : Leave) : Leave :=
  { l with status := "Approved", approved_date := some now }

/-- The `SET status = 'Rejected', remarks = $2, rejected_date = NOW()` clause. -/
def setRejected (remarks : String) (now : Int) (l : Leave) : Leave :=
  { l with status := "Rejected", remarks := remarks, rejected_date := some now }

/-- The `SET status = 'Cancelled', remarks = 'Cancelled by employee',
cancelled_date = $3` of the direct-cancel handler. -/
def setCancelledDirect (now : Int) (l : Leave) : Leave :=
  { l with status := "Cancelled", remarks := "Cancelled by employee",
           cancelled_date := some now }

/-- The `SET cancel_request_status = 'Pending', cancel_reason = $2` clause. -/
def setCancelRequested (reason : String) (l : Leave) : Leave :=
  { l with cancel_request_status := "Pending", cancel_reason := reason }

/-- The `SET status = 'Cancelled', cancel_request_status = 'Approved',
cancelled_date = CURRENT_TIMESTAMP` of the approve-cancellation handler. -/
def setCancelVerdictApproved (now : Int) (l : Leave) : Leave :=
  { l with status := "Cancelled", cancel_request_status := "Approved",
           cancelled_date := some now }

/-- The `SET cancel_request_status = 'Rejected', cancel_reason = $2` clause of the
reject-cancellation handler. -/
def setCancelVerdictRejected (remarks : String) (l : Leave) : Leave :=
  { l with cancel_request_status := "Rejected", cancel_reason := remarks }

/-- The SET clause of the cancel-approved handler (`remarks` defaults to
`'Cancelled by employee'` on a falsy reason). -/
def setCancelledGuarded (reason : String) (today : Int) (l : Leave) : Leave :=
  { l with status := "Cancelled",
           remarks := if reason == "" then "Cancelled by employee" else reason,
           cancelled_date := some today }

/-- Milliseconds per day, the divisor of the handlers' day computation. -/
def msPerDay : Int := 1000 * 60 * 60 * 24

/-- Twelve hours in milliseconds.  The cancel-approved handler computes
`diffHours = (today - approvedDate) / (1000*60*60)` and rejects when
`diffHours > 12`; over the integer millisecond timestamps this comparison
is exactly `today - approvedDate > msWindow`. -/
def msWindow : Int := 12 * (1000 * 60 * 60)

/-- The `[App]`/`[Web]` origin tag derived from the `x-source` header. -/
def originTag (xsource : String) : String :=
  if xsource == "app" then "App" else "Web"

/-- The handlers' `/\[(App|Web)\]$/` test on a sender display name. -/
def hasOriginTag (name : String) : Bool :=
  name.endsWith "[App]" || name.endsWith "[Web]"

/-- Append the origin tag unless the name already carries one. -/
def decorateName (name : String) (xsource : String) : String :=
  if hasOriginTag name then name else name ++ " [" ++ originTag xsource ++ "]"

/-- Employee lookup used by the notification code of several handlers:
`empInfo.rows[0]?.full_name || 'Employee'`. -/
def senderNameOf (db : DB) (eid : String) (xsource : String) : String :=
  decorateName
    (((db.employees.find? fun e => e.employee_id == eid).map Employee.full_name).getD "Employee")
    xsource

/-- Matching `empInfo.rows[0]?.profile_photo || null`. -/
def senderPhotoOf (db : DB) (eid : String) : Option String :=
  ((db.employees.find? fun e => e.employee_id == eid).map Employee.profile_photo).getD none

/-- The `days` computed at submission:
`Math.floor((end - start) / (1000*60*60*24)) + 1` when both dates are
present (floor division of the millisecond difference), `0` otherwise. -/
def daysOf (startDate endDate : Option Int) : Int :=
  match startDate, endDate with
  | some s, some e => Int.fdiv (e - s) msPerDay + 1
  | _, _ => 0

/-- The leave row INSERTed by the submission handler. -/
def newLeaf (db : DB) (employeeId type : String)
    (startDate endDate : Option Int) (reason location : String)
    (now : Int) (emp : Employee) : Leave :=
  { id := db.nextId
    employee_id := employeeId
    employee_name := emp.full_name
    type := type
    start_date := startDate
    end_date := endDate
    days := daysOf startDate endDate
    reason := reason
    status := "Pending"
    applied_on := now
    location := location
    designation := emp.designation
    remarks := ""
    cancel_request_status := ""
    cancel_reason := ""
    approved_date := none
    rejected_date := none
    cancelled_date := none }

/-- Handler `POST /api/leaves`.  `days` is computed from the date span when both
dates are present (`Math.floor((end - start) / 86400000) + 1`, i.e. floor
division of the millisecond difference).  The employee must exist and
have a non-empty (non-NULL) designation; the handler never reads the
employee's Active/Inactive status.  The leave INSERT and the notification
INSERT are two separate autocommitted queries inside one try/catch:
`leaveOk`/`notifOk` say whether each INSERT succeeds, and a failure of
the second leaves the first committed. -/
def submitLeave (db : DB) (employeeId type : String)
    (startDate endDate : Option Int) (reason location : String)
    (now : Int) (xsource : String) (leaveOk notifOk : Bool) :
    DB × Except LeaveError Leave :=
  match db.employees.find? fun e => e.employee_id == employeeId with
  | none => (db, .error .employeeNotFound)
  | some emp =>
    if emp.designation == "" then (db, .error .designationMissing)
    else if !leaveOk then (db, .error .storeFailure)
    else
      let leaf : Leave := newLeaf db employeeId type startDate endDate reason location now emp
      let db1 : DB :=
        { db with leaves := db.leaves ++ [leaf], nextId := db.nextId + 1 }
      if !notifOk then (db1, .error .storeFailure)
      else
        let notif : Notification :=
          { type := "New Leave Request"
            message := "New leave request from " ++ emp.full_name ++ " (" ++
              employeeId ++ ") for " ++ type ++ "."
            user_id := none
            sender_id := employeeId
            sender_name := emp.full_name ++ " [" ++ originTag xsource ++ "]"
            sender_photo := emp.profile_photo
            created_at := now }
        ({ db1 with notifications := notif :: db1.notifications }, .ok leaf)

/-- Handler `PATCH /api/leaves/:id/approve`.  The first SELECT joins `leaves`
with `employees`, so a missing employee row also yields the `Leave not
found` 404; the whole handler runs in one transaction and rolls back on
every error. -/
def approveLeave (db : DB) (i : Nat) (now : Int) (xsource : String) :
    Except LeaveError DB :=
  match db.leaves.find? fun l => l.id == i with
  | none => .error .notFound
  | some leave =>
    match db.employees.find? fun e => e.employee_id == leave.employee_id with
    | none => .error .notFound
    | some _ =>
      if strLower (strTrim leave.status) == "approved" then .error .alreadyApproved
      else
        match balanceColumn leave.type with
        | none => .error .invalidLeaveType
        | some col =>
          match db.employees.find? fun e => e.employee_id == leave.employee_id with
          | none => .error .employeeNotFound
          | some emp =>
            if emp.getBal col < leave.days then .error .insufficientBalance
            else
              let leaves' := updateWhere (fun l => l.id == i)
                (setApproved now) db.leaves
              let employees' := updateWhere
                (fun e => e.employee_id == leave.employee_id)
                (fun e => e.debit col leave.days) db.employees
              let notif : Notification :=
                { type := "leave_approved"
                  message := "Your " ++ leave.type ++ " leave request has been approved."
                  user_id := some leave.employee_id
                  sender_id := leave.employee_id
                  sender_name := senderNameOf db leave.employee_id xsource
                  sender_photo := senderPhotoOf db leave.employee_id
                  created_at := now }
              .ok { db with
                      leaves := leaves'
                      employees := employees'
                      notifications := notif :: db.notifications }

/-- Handler `PATCH /api/leaves/:id/reject`.  A single UPDATE with no status
guard: whatever state the request is in it becomes Rejected with the
remarks stored; employees (hence balances) are never touched. -/
def rejectLeave (db : DB) (i : Nat) (remarks : String) (now : Int)
    (xsource : String) : Except LeaveError DB :=
  if db.leaves.any fun l => l.id == i then
    let leaves' := updateWhere (fun l => l.id == i)
      (setRejected remarks now) db.leaves
    let owner :=
      ((db.leaves.find? fun l => l.id == i).map Leave.employee_id).getD ""
    let notif : Notification :=
      { type := "leave_rejected"
        message := "Your leave request has been rejected. " ++ remarks
        user_id := some owner
        sender_id := owner
        sender_name := senderNameOf db owner xsource
        sender_photo := senderPhotoOf db owner
        created_at := now }
    .ok { db with leaves := leaves', notifications := notif :: db.notifications }
  else .error .notFound

/-- Handler `PATCH /api/leaves/:id/cancel` (transactional direct cancellation).
Already-Cancelled requests are rejected; an Approved request has its
balance column restored by `+days` before the status flips to Cancelled;
any other status just flips to Cancelled with no balance change.  The
handler emits no notification. -/
def cancelLeave (db : DB) (i : Nat) (now : Int) : Except LeaveError DB :=
  match db.leaves.find? fun l => l.id == i with
  | none => .error .notFound
  | some leave =>
    if leave.status == "Cancelled" then .error .alreadyCancelled
    else if leave.status == "Approved" then
      match balanceColumn leave.type with
      | none => .error .invalidLeaveType
      | some col =>
        let employees' := updateWhere
          (fun e => e.employee_id == leave.employee_id)
          (fun e => e.credit col leave.days) db.employees
        let leaves' := updateWhere (fun l => l.id == i)
          (setCancelledDirect now) db.leaves
        .ok { db with employees := employees', leaves := leaves' }
    else
      let leaves' := updateWhere (fun l => l.id == i)
        (setCancelledDirect now) db.leaves
      .ok { db with leaves := leaves' }

/-- Handler `POST /api/leaves/:id/request-cancellation`.  The SELECT filters by
id and owner; the guards are `(status || '').toLowerCase() !==
'approved'` and `(cancel_request_status || '').toLowerCase() ===
'pending'`; the UPDATE is keyed by id alone. -/
def requestCancellation (db : DB) (i : Nat) (employeeId cancelReason : String)
    (now : Int) (xsource : String) : Except LeaveError DB :=
  match db.leaves.find? fun l => l.id == i && l.employee_id == employeeId with
  | none => .error .notFound
  | some leave =>
    if !(strLower leave.status == "approved") then .error .onlyApprovedCancellable
    else if strLower leave.cancel_request_status == "pending" then
      .error .cancellationAlreadyRequested
    else
      let leaves' := updateWhere (fun l => l.id == i)
        (setCancelRequested cancelReason) db.leaves
      let notif : Notification :=
        { type := "leave_cancellation_requested"
          message := "Employee " ++ employeeId ++ " requested cancellation."
          user_id := none
          sender_id := employeeId
          sender_name := senderNameOf db employeeId xsource
          sender_photo := senderPhotoOf db employeeId
          created_at := now }
      .ok { db with leaves := leaves', notifications := notif :: db.notifications }

/-- Handler `POST /api/leaves/:id/approve-cancellation`.  The only guard is
`(cancel_request_status || '').toLowerCase() !== 'pending'`; the
request's own status is never checked.  The status is set to Cancelled
first and then the balance column (via the upper-cased type switch, when
it maps) is restored. -/
def approveCancellation (db : DB) (i : Nat) (now : Int) (xsource : String) :
    Except LeaveError DB :=
  match db.leaves.find? fun l => l.id == i with
  | none => .error .notFound
  | some leave =>
    if !(strLower leave.cancel_request_status == "pending") then
      .error .noPendingCancellation
    else
      let leaves' := updateWhere (fun l => l.id == i)
        (setCancelVerdictApproved now) db.leaves
      let employees' :=
        match balanceColumnUpper leave.type with
        | some col => updateWhere
            (fun e => e.employee_id == leave.employee_id)
            (fun e => e.credit col leave.days) db.employees
        | none => db.employees
      let notif : Notification :=
        { type := "leave_cancellation_approved"
          message := "Your leave cancellation was approved."
          user_id := some leave.employee_id
          sender_id := leave.employee_id
          sender_name := senderNameOf db leave.employee_id xsource
          sender_photo := senderPhotoOf db leave.employee_id
          created_at := now }
      .ok { db with
              leaves := leaves'
              employees := employees'
              notifications := notif :: db.notifications }

/-- Handler `POST /api/leaves/:id/reject-cancellation`.  Requires a pending
cancellation request; flips `cancel_request_status` to Rejected and
stores the remarks as `cancel_reason`; status and employees untouched. -/
def rejectCancellation (db : DB) (i : Nat) (remarks : String) (now : Int)
    (xsource : String) : Except LeaveError DB :=
  match db.leaves.find? fun l => l.id == i with
  | none => .error .notFound
  | some leave =>
    if !(strLower leave.cancel_request_status == "pending") then
      .error .noPendingCancellation
    else
      let leaves' := updateWhere (fun l => l.id == i)
        (setCancelVerdictRejected remarks) db.leaves
      let notif : Notification :=
        { type := "leave_cancellation_rejected"
          message := "Your leave cancellation was rejected. " ++ remarks
          user_id := some leave.employee_id
          sender_id := leave.employee_id
          sender_name := senderNameOf db leave.employee_id xsource
          sender_photo := senderPhotoOf db leave.employee_id
          created_at := now }
      .ok { db with leaves := leaves', notifications := notif :: db.notifications }

/-- Handler `POST /api/leaves/cancel-approved` (guarded direct cancellation).
Both ids are required (JS falsy check, so an empty employee id also
fails).  The SELECT filters by id, owner and `status = 'Approved'`.
`new Date(null)` is the epoch, hence `start_date.getD 0`.  The window
guard runs before the already-started guard; every error return precedes
the first write.  On success the status UPDATE (keyed by id and owner)
runs first, then the balance restore when the upper-cased type maps to a
column. -/
def cancelApproved (db : DB) (leaveId : Option Nat)
    (employeeId : Option String) (cancelReason : String) (today : Int) :
    Except LeaveError DB :=
  match leaveId, employeeId with
  | some i, some eid =>
    if eid == "" then .error .missingFields
    else
      match db.leaves.find?
        (fun l => l.id == i && l.employee_id == eid && l.status == "Approved") with
      | none => .error .notApprovedOrMissing
      | some leave =>
        match leave.approved_date with
        | none => .error .noApprovedDate
        | some ad =>
          if today - ad > msWindow then .error .windowExpired
          else if leave.start_date.getD 0 ≤ today then .error .alreadyStarted
          else
            let leaves' := updateWhere
              (fun l => l.id == i && l.employee_id == eid)
              (setCancelledGuarded cancelReason today) db.leaves
            let employees' :=
              match balanceColumnUpper leave.type with
              | some col => updateWhere (fun e => e.employee_id == eid)
                  (fun e => e.credit col leave.days) db.employees
              | none => db.employees
            let notif : Notification :=
              { type := "leave_cancelled"
                message := "Leave request has been cancelled by employee " ++ eid
                user_id := some "1"
                sender_id := eid
                sender_name := eid
                sender_photo := none
                created_at := today }
            .ok { db with
                    leaves := leaves'
                    employees := employees'
                    notifications := notif :: db.notifications }
  | _, _ => .error .missingFields

/-! ## Operation language and runs

The claims quantify over sequences of the ledger operations (submit,
approve, the three cancellation paths and the two admin verdicts on a
cancellation request).  `Op` is that operation language, `applyOp` runs
one operation keeping the old database on any error (every handler above
leaves the database unchanged on error), and `runOps` folds a list. -/

/-- One inbound ledger action with its request payload and clock. -/
inductive Op where
  | submit (employeeId type : String) (startDate endDate : Option Int)
      (reason location : String) (now : Int) (xsource : String)
  | approve (i : Nat) (now : Int) (xsource : String)
  | cancel (i : Nat) (now : Int)
  | cancelApproved (i : Nat) (employeeId cancelReason : String) (today : Int)
  | requestCancel (i : Nat) (employeeId cancelReason : String) (now : Int)
      (xsource : String)
  | approveCancel (i : Nat) (now : Int) (xsource : String)
  | rejectCancel (i : Nat) (remarks : String) (now : Int) (xsource : String)
deriving Repr, DecidableEq

/-- Run one operation; on a handler error the database is unchanged. -/
def applyOp (db : DB) : Op → DB
  | .submit eid t s e r loc now x => (submitLeave db eid t s e r loc now x true true).1
  | .approve i now x =>
    match approveLeave db i now x with
    | .ok db' => db'
    | .error _ => db
  | .cancel i now =>
    match cancelLeave db i now with
    | .ok db' => db'
    | .error _ => db
  | .cancelApproved i eid r today =>
    match cancelApproved db (some i) (some eid) r today with
    | .ok db' => db'
    | .error _ => db
  | .requestCancel i eid r now x =>
    match requestCancellation db i eid r now x with
    | .ok db' => db'
    | .error _ => db
  | .approveCancel i now x =>
    match approveCancellation db i now x with
    | .ok db' => db'
    | .error _ => db
  | .rejectCancel i r now x =>
    match rejectCancellation db i r now x with
    | .ok db' => db'
    | .error _ => db

/-- Run a sequence of operations. -/
def runOps (db : DB) (ops : List Op) : DB :=
  ops.foldl applyOp db

/-- Safety side condition for the conservation invariant: an
approve-cancellation may only be applied to a request that is still
Approved (the handler itself never checks this; a direct cancel between
request-cancellation and approve-cancellation leaves the cancellation
request pending on an already-Cancelled leave and the admin verdict then
credits the balance a second time). -/
def safeOp (db : DB) : Op → Bool
  | .approveCancel i _ _ =>
    match db.leaves.find? fun l => l.id == i with
    | some l => !(strLower l.cancel_request_status == "pending") || l.status == "Approved"
    | none => true
  | _ => true

/-- A run is safe when every step satisfies `safeOp` in the state it is
applied to. -/
def safeRun : DB → List Op → Bool
  | _, [] => true
  | db, op :: ops => safeOp db op && safeRun (applyOp db op) ops

/-! ## Well-formed databases and the balance ledger -/

/-- No two rows of `leaves` share an id (the column is a SERIAL primary
key). -/
def nodupIds : List Leave → Bool
  | [] => true
  | l :: ls => (ls.all fun x => !(x.id == l.id)) && nodupIds ls

/-- The type string of a leave that is Approved, or whose cancellation
request is pending, maps the same way through the exact-match column
table and the upper-cased switch.  (Every leave the handlers themselves
drive into these states has type exactly `CL`, `EL` or `RH` when it
matters, so this holds; it rules out initial rows such as an Approved
leave of type `cl` that the exact table ignores but the upper-cased
switch credits.) -/
def leafCanonical (l : Leave) : Bool :=
  !(strLower l.status == "approved" || strLower l.cancel_request_status == "pending") ||
    balanceColumnUpper l.type == balanceColumn l.type

/-- Database well-formedness: distinct leave ids, ids below the SERIAL
counter, and canonical leaves. -/
def dbWF (db : DB) : Bool :=
  nodupIds db.leaves &&
    (db.leaves.all fun l => l.id < db.nextId) &&
    db.leaves.all leafCanonical

/-- The contribution of one leave row to the sum of currently-Approved
days of employee `eid` in column `col`. -/
def contribFor (eid : String) (col : BalCol) (l : Leave) : Int :=
  if l.employee_id == eid && l.status == "Approved" && balanceColumn l.type == some col
  then l.days else 0

/-- Total days of employee `eid`'s currently-Approved requests whose type
maps to balance column `col`. -/
def approvedDays (leaves : List Leave) (eid : String) (col : BalCol) : Int :=
  (leaves.map (contribFor eid col)).sum

/-- The conserved ledger quantity of the balance-conservation invariant:
the stored balance plus the days of currently-Approved requests, for the
employee row found under `eid` (or `none` when no such row exists). -/
def ledgerOf (db : DB) (eid : String) (col : BalCol) : Option Int :=
  (db.employees.find? fun e => e.employee_id == eid).map
    fun e => e.getBal col + approvedDays db.leaves eid col

/-! ## Debit/credit events of a run -/

/-- Whether the next operation debits the balance for leave `i`: only a
successful approve does. -/
def isDebitOf (db : DB) (op : Op) (i : Nat) : Bool :=
  match op with
  | .approve j now x =>
    j == i &&
      match approveLeave db j now x with
      | .ok _ => true
      | .error _ => false
  | _ => false

/-- Whether the next operation credits the balance for leave `i`: a
successful direct cancel of an Approved leave, a successful
cancel-approved whose type maps to a column, or a successful
approve-cancellation whose type maps to a column. -/
def isCreditOf (db : DB) (op : Op) (i : Nat) : Bool :=
  match op with
  | .cancel j now =>
    j == i &&
      ((db.leaves.find? fun l => l.id == j).map
        (fun l => l.status == "Approved")).getD false &&
      match cancelLeave db j now with
      | .ok _ => true
      | .error _ => false
  | .cancelApproved j eid r today =>
    j == i &&
      ((db.leaves.find? fun l =>
          l.id == j && l.employee_id == eid && l.status == "Approved").map
        (fun l => (balanceColumnUpper l.type).isSome)).getD false &&
      match cancelApproved db (some j) (some eid) r today with
      | .ok _ => true
      | .error _ => false
  | .approveCancel j now x =>
    j == i &&
      ((db.leaves.find? fun l => l.id == j).map
        (fun l => (balanceColumnUpper l.type).isSome)).getD false &&
      match approveCancellation db j now x with
      | .ok _ => true
      | .error _ => false
  | _ => false

/-- Number of debit events attributed to leave `i` along a run. -/
def countDebits : DB → List Op → Nat → Nat
  | _, [], _ => 0
  | db, op :: ops, i =>
    (if isDebitOf db op i then 1 else 0) + countDebits (applyOp db op) ops i

/-- Number of credit events attributed to leave `i` along a run. -/
def countCredits : DB → List Op → Nat → Nat
  | _, [], _ => 0
  | db, op :: ops, i =>
    (if isCreditOf db op i then 1 else 0) + countCredits (applyOp db op) ops i

/-! ## Concrete sample states used by witnesses and counterexamples -/

/-- A sample employee with the default quota balances of the schema
(`cl_balance 16`, `el_balance 18`, `rh_balance 3`). -/
def emp1 : Employee :=
  { employee_id := "E1"
    full_name := "Asha Rao"
    designation := "Engineer"
    profile_photo := none
    status := "Active"
    cl_balance := 16
    el_balance := 18
    rh_balance := 3 }

/-- A sample database holding `emp1` and no leave requests. -/
def db1 : DB :=
  { employees := [emp1], leaves := [], notifications := [], nextId := 1 }

/-- Submit a two-day CL leave, approve it, file a cancellation request,
directly cancel, then let the admin approve the (stale) cancellation
request: the interleaving behind the double-credit counterexamples. -/
def doubleCreditOps : List Op :=
  [ .submit "E1" "CL" (some 0) (some msPerDay) "trip" "HQ" 10 "web"
  , .approve 1 20 "web"
  , .requestCancel 1 "E1" "plans changed" 30 "web"
  , .cancel 1 40
  , .approveCancel 1 50 "web" ]

/-- Submit, approve, then run the two-step cancellation to completion
while the request is still Approved: a safe run. -/
def safeTwoStepOps : List Op :=
  [ .submit "E1" "CL" (some 0) (some msPerDay) "trip" "HQ" 10 "web"
  , .approve 1 20 "web"
  , .requestCancel 1 "E1" "plans changed" 30 "web"
  , .approveCancel 1 50 "web" ]

/-- Submit, approve, directly cancel, then approve again: the
re-approval interleaving that debits the same request twice. -/
def doubleDebitOps : List Op :=
  [ .submit "E1" "CL" (some 0) (some msPerDay) "trip" "HQ" 10 "web"
  , .approve 1 20 "web"
  , .cancel 1 40
  , .approve 1 60 "web" ]

/-- A concrete leave row with the given id, owner, type, days, status,
cancellation sub-state and dates (remaining columns fixed). -/
def mkLeaf (i : Nat) (eid t : String) (d : Int) (st crs : String)
    (ad sd : Option Int) : Leave :=
  { id := i
    employee_id := eid
    employee_name := "Asha Rao"
    type := t
    start_date := sd
    end_date := sd
    days := d
    reason := "personal"
    status := st
    applied_on := 0
    location := "HQ"
    designation := "Engineer"
    remarks := ""
    cancel_request_status := crs
    cancel_reason := ""
    approved_date := ad
    rejected_date := none
    cancelled_date := none }

/-- A database with one already-Cancelled CL request. -/
def dbC2 : DB :=
  { employees := [emp1]
    leaves := [mkLeaf 1 "E1" "CL" 2 "Cancelled" "" none none]
    notifications := []
    nextId := 2 }

/-- An employee with `cl_balance = 2` owning a Pending five-day CL
request (the spec's insufficient-balance scenario). -/
def dbC3 : DB :=
  { employees := [{ emp1 with cl_balance := 2 }]
    leaves := [mkLeaf 1 "E1" "CL" 5 "Pending" "" none none]
    notifications := []
    nextId := 2 }

/-- An Approved request whose cancellation request is already Pending. -/
def dbC4 : DB :=
  { employees := [emp1]
    leaves := [mkLeaf 1 "E1" "CL" 2 "Approved" "Pending" (some 0) (some 999999999999)]
    notifications := []
    nextId := 2 }

/-- An Approved request approved at time 0 with a far-future start date
(for the cancel-approved window scenarios). -/
def dbC6 : DB :=
  { employees := [emp1]
    leaves := [mkLeaf 1 "E1" "CL" 2 "Approved" "" (some 0) (some 999999999999)]
    notifications := []
    nextId := 2 }

/-- An Inactive employee with a designation on file. -/
def empInactive : Employee :=
  { employee_id := "E2"
    full_name := "Ravi Iyer"
    designation := "Clerk"
    profile_photo := none
    status := "Inactive"
    cl_balance := 16
    el_balance := 18
    rh_balance := 3 }

/-- A database whose only employee is Inactive. -/
def dbInactive : DB :=
  { employees := [empInactive], leaves := [], notifications := [], nextId := 1 }

/-- A database with one Approved request (used to reject an
already-Approved request). -/
def dbC8 : DB :=
  { employees := [emp1]
    leaves := [mkLeaf 1 "E1" "CL" 2 "Approved" "" (some 0) (some 5)]
    notifications := []
    nextId := 2 }

/-- A database with one Cancelled five-day CL request (for the
re-approval scenario). -/
def dbC10 : DB :=
  { employees := [emp1]
    leaves := [mkLeaf 1 "E1" "CL" 5 "Cancelled" "" (some 0) none]
    notifications := []
    nextId := 2 }

/-- The database state written by a successful request-cancellation
(leaves updated by id, a broadcast notification appended). -/
def reqCancelState (db : DB) (i : Nat) (eid reason : String) (now : Int)
    (x : String) : DB :=
  DB.mk db.employees
    (updateWhere (fun ll => ll.id == i) (setCancelRequested reason) db.leaves)
    ({ type := "leave_cancellation_requested"
       message := "Employee " ++ eid ++ " requested cancellation."
       user_id := none
       sender_id := eid
       sender_name := senderNameOf db eid x
       sender_photo := senderPhotoOf db eid
       created_at := now } :: db.notifications)
    db.nextId

/-- The `(id, days)` projection of the leaves table: the claims about
`days` immutability say this projection only ever grows by appended
rows, never changing an existing row's days. -/
def daysMap (db : DB) : List (Nat × Int) :=
  db.leaves.map fun l => (l.id, l.days)

/-- The database state written by a successful reject-cancellation. -/
def rejCancelState (db : DB) (i : Nat) (remarks : String) (now : Int)
    (x owner : String) : DB :=
  DB.mk db.employees
    (updateWhere (fun ll => ll.id == i) (setCancelVerdictRejected remarks) db.leaves)
    ({ type := "leave_cancellation_rejected"
       message := "Your leave cancellation was rejected. " ++ remarks
       user_id := some owner
       sender_id := owner
       sender_name := senderNameOf db owner x
       sender_photo := senderPhotoOf db owner
       created_at := now } :: db.notifications)
    db.nextId

/-! ## Generic lemmas about `updateWhere`, `find?` and row counting -/

theorem updateWhere_nil {α : Type} (p : α → Bool) (f : α → α) :
    updateWhere p f [] = [] := rfl

theorem updateWhere_cons {α : Type} (p : α → Bool) (f : α → α) (x : α)
    (xs : List α) :
    updateWhere p f (x :: xs) =
      (if p x then f x else x) :: updateWhere p f xs := rfl

theorem updateWhere_eq_self {α : Type} (p : α → Bool) (f : α → α)
    (xs : List α) (h : ∀ x ∈ xs, p x = false) :
    updateWhere p f xs = xs := by
  induction xs with
  | nil => rfl
  | cons x xs ih =>
    rw [updateWhere_cons, h x (List.mem_cons_self x xs),
      ih fun y hy => h y (List.mem_cons_of_mem x hy)]
    simp

theorem find?_updateWhere_comm {α : Type} (p : α → Bool) (f : α → α)
    (q : α → Bool) (hq : ∀ x, q (f x) = q x) (xs : List α) :
    (updateWhere p f xs).find? q =
      (xs.find? q).map fun x => if p x then f x else x := by
  induction xs with
  | nil => rfl
  | cons x xs ih =>
    rw [updateWhere_cons]
    by_cases hx : q x = true
    · have hgx : q (if p x then f x else x) = true := by
        by_cases hp : p x = true
        · rw [if_pos hp, hq, hx]
        · rw [if_neg hp, hx]
      rw [List.find?_cons_of_pos _ hgx, List.find?_cons_of_pos _ hx]; rfl
    · have hgx : ¬q (if p x then f x else x) = true := by
        by_cases hp : p x = true
        · rw [if_pos hp, hq]; exact hx
        · rw [if_neg hp]; exact hx
      rw [List.find?_cons_of_neg _ hgx, List.find?_cons_of_neg _ hx, ih]

theorem map_updateWhere_eq {α β : Type} (p : α → Bool) (f : α → α)
    (pr : α → β) (hpr : ∀ x, pr (f x) = pr x) (xs : List α) :
    (updateWhere p f xs).map pr = xs.map pr := by
  induction xs with
  | nil => rfl
  | cons x xs ih =>
    rw [updateWhere_cons, List.map_cons, List.map_cons, ih]
    by_cases hp : p x = true
    · rw [if_pos hp, hpr]
    · rw [if_neg hp]

theorem all_updateWhere_eq {α : Type} (p : α → Bool) (f : α → α)
    (q : α → Bool) (hq : ∀ x, q (f x) = q x) (xs : List α) :
    (updateWhere p f xs).all q = xs.all q := by
  induction xs with
  | nil => rfl
  | cons x xs ih =>
    rw [updateWhere_cons, List.all_cons, List.all_cons, ih]
    by_cases hp : p x = true
    · rw [if_pos hp, hq]
    · rw [if_neg hp]

theorem sum_map_updateWhere {α : Type} (p : α → Bool) (f : α → α)
    (g : α → Int) (xs : List α) (x₀ : α)
    (hfind : xs.find? p = some x₀) (hcount : xs.countP p = 1) :
    ((updateWhere p f xs).map g).sum = (xs.map g).sum - g x₀ + g (f x₀) := by
  induction xs with
  | nil => simp at hfind
  | cons x xs ih =>
    rw [List.countP_cons] at hcount
    by_cases hx : p x = true
    · rw [List.find?_cons_of_pos _ hx] at hfind
      have hx₀ : x₀ = x := by
        injection hfind with h; exact h.symm
      subst hx₀
      have hzero : xs.countP p = 0 := by
        rw [if_pos hx] at hcount; omega
      have hxs : updateWhere p f xs = xs :=
        updateWhere_eq_self p f xs fun y hy => by
          by_contra hny
          have hpos : 0 < xs.countP p :=
            List.countP_pos_iff.mpr ⟨y, hy, by
              cases hpy : p y with
              | true => rfl
              | false => exact absurd hpy hny⟩
          omega
      rw [updateWhere_cons, if_pos hx, hxs, List.map_cons, List.map_cons,
        List.sum_cons, List.sum_cons]
      ring
    · rw [List.find?_cons_of_neg _ hx] at hfind
      have hcount' : xs.countP p = 1 := by
        rw [if_neg hx] at hcount; omega
      rw [updateWhere_cons, if_neg hx, List.map_cons, List.map_cons,
        List.sum_cons, List.sum_cons, ih hfind hcount']
      ring

theorem eq_of_countP_le_one {α : Type} (p : α → Bool) (xs : List α) (x₀ : α)
    (hcount : xs.countP p ≤ 1) (hfind : xs.find? p = some x₀) :
    ∀ x ∈ xs, p x = true → x = x₀ := by
  induction xs with
  | nil => intro x hx; simp at hx
  | cons x xs ih =>
    rw [List.countP_cons] at hcount
    intro y hy hpy
    by_cases hx : p x = true
    · rw [List.find?_cons_of_pos _ hx] at hfind
      have hx₀ : x₀ = x := by injection hfind with h; exact h.symm
      subst hx₀
      rcases List.mem_cons.mp hy with h | h
      · exact h
      · exfalso
        have hpos : 0 < xs.countP p := List.countP_pos_iff.mpr ⟨y, h, hpy⟩
        rw [if_pos hx] at hcount
        omega
    · rw [List.find?_cons_of_neg _ hx] at hfind
      rcases List.mem_cons.mp hy with h | h
      · subst h; exact absurd hpy hx
      · exact ih (by rw [if_neg hx] at hcount; omega) hfind y h hpy

theorem all_updateWhere_of_unique {α : Type} (p : α → Bool) (f : α → α)
    (c : α → Bool) (xs : List α) (x₀ : α)
    (hx₀ : ∀ x ∈ xs, p x = true → x = x₀)
    (hall : xs.all c = true) (hf : c (f x₀) = true) :
    (updateWhere p f xs).all c = true := by
  rw [List.all_eq_true] at hall ⊢
  intro y hy
  obtain ⟨x, hx, rfl⟩ := List.mem_map.mp hy
  by_cases hp : p x = true
  · rw [if_pos hp, hx₀ x hx hp]; exact hf
  · rw [if_neg hp]; exact hall x hx

/-! ## Facts about ids, balances and the status strings -/

theorem nodupIds_cons (l : Leave) (ls : List Leave) :
    nodupIds (l :: ls) = ((ls.all fun x => !(x.id == l.id)) && nodupIds ls) := rfl

theorem countP_id_le_one (xs : List Leave) (i : Nat) (h : nodupIds xs = true) :
    xs.countP (fun l => l.id == i) ≤ 1 := by
  induction xs with
  | nil => simp
  | cons x xs ih =>
    rw [nodupIds_cons, Bool.and_eq_true] at h
    rw [List.countP_cons]
    by_cases hx : (x.id == i) = true
    · have hxi : x.id = i := by simpa using hx
      have hzero : xs.countP (fun l => l.id == i) = 0 := by
        rw [List.countP_eq_zero]
        intro a ha hpa
        have hnot := (List.all_eq_true).mp h.1 a ha
        have hai : a.id = i := by simpa using hpa
        rw [hai, hxi] at hnot
        simp at hnot
      simp [hzero, hx]
    · have h1 := ih h.2
      have hx' : (x.id == i) = false := by
        cases hxx : x.id == i with
        | false => rfl
        | true => exact absurd hxx hx
      rw [hx', if_neg Bool.false_ne_true]
      omega

theorem countP_le_of_imp {α : Type} (p q : α → Bool) (xs : List α)
    (h : ∀ x, p x = true → q x = true) : xs.countP p ≤ xs.countP q := by
  induction xs with
  | nil => simp
  | cons x xs ih =>
    rw [List.countP_cons, List.countP_cons]
    by_cases hp : p x = true
    · rw [if_pos hp, if_pos (h x hp)]; omega
    · rw [if_neg hp]
      split <;> omega

theorem countP_eq_one_of_find {α : Type} (p : α → Bool) (xs : List α) (x₀ : α)
    (hle : xs.countP p ≤ 1) (hfind : xs.find? p = some x₀) :
    xs.countP p = 1 := by
  have hmem : x₀ ∈ xs := List.mem_of_find?_eq_some hfind
  have hsat : p x₀ = true := List.find?_some hfind
  have hpos : 0 < xs.countP p := List.countP_pos_iff.mpr ⟨x₀, hmem, hsat⟩
  omega

theorem all_ne_id_eq_of_ids_eq (xs ys : List Leave) (n : Nat)
    (h : xs.map Leave.id = ys.map Leave.id) :
    (xs.all fun z => !(z.id == n)) = (ys.all fun z => !(z.id == n)) := by
  induction xs generalizing ys with
  | nil => cases ys with
    | nil => rfl
    | cons b bs => simp at h
  | cons a as ih =>
    cases ys with
    | nil => simp at h
    | cons b bs =>
      rw [List.map_cons, List.map_cons, List.cons.injEq] at h
      rw [List.all_cons, List.all_cons, ih bs h.2, h.1]

theorem nodupIds_eq_of_ids_eq (xs ys : List Leave)
    (h : xs.map Leave.id = ys.map Leave.id) : nodupIds xs = nodupIds ys := by
  induction xs generalizing ys with
  | nil => cases ys with
    | nil => rfl
    | cons y ys => simp at h
  | cons x xs ih =>
    cases ys with
    | nil => simp at h
    | cons y ys =>
      rw [List.map_cons, List.map_cons, List.cons.injEq] at h
      rw [nodupIds_cons, nodupIds_cons, ih ys h.2, h.1,
        all_ne_id_eq_of_ids_eq xs ys y.id h.2]

theorem updateWhere_ids (p : Leave → Bool) (f : Leave → Leave)
    (hid : ∀ x, (f x).id = x.id) (xs : List Leave) :
    (updateWhere p f xs).map Leave.id = xs.map Leave.id :=
  map_updateWhere_eq p f Leave.id hid xs

theorem nodupIds_updateWhere (p : Leave → Bool) (f : Leave → Leave)
    (hid : ∀ x, (f x).id = x.id) (xs : List Leave) :
    nodupIds (updateWhere p f xs) = nodupIds xs :=
  nodupIds_eq_of_ids_eq _ _ (updateWhere_ids p f hid xs)

theorem debit_employee_id (e : Employee) (c : BalCol) (d : Int) :
    (e.debit c d).employee_id = e.employee_id := by cases c <;> rfl

theorem credit_employee_id (e : Employee) (c : BalCol) (d : Int) :
    (e.credit c d).employee_id = e.employee_id := by cases c <;> rfl

theorem getBal_debit (e : Employee) (c : BalCol) (d : Int) (c' : BalCol) :
    (e.debit c d).getBal c' = e.getBal c' - (if c' = c then d else 0) := by
  cases c <;> cases c' <;> simp [Employee.debit, Employee.getBal]

theorem getBal_credit (e : Employee) (c : BalCol) (d : Int) (c' : BalCol) :
    (e.credit c d).getBal c' = e.getBal c' + (if c' = c then d else 0) := by
  cases c <;> cases c' <;> simp [Employee.credit, Employee.getBal]

theorem beq_approved_false_of_trim_guard (s : String)
    (h : (strLower (strTrim s) == "approved") = false) :
    (s == "Approved") = false := by
  cases hs : s == "Approved" with
  | false => rfl
  | true =>
    have heq : s = "Approved" := by simpa using hs
    subst heq
    exact absurd h (by decide)

theorem lower_approved_of_beq (s : String) (h : (s == "Approved") = true) :
    (strLower s == "approved") = true := by
  have heq : s = "Approved" := by simpa using h
  subst heq
  decide

theorem balanceColumn_mapped_cases (t : String) (c : BalCol)
    (h : balanceColumn t = some c) : t = "CL" ∨ t = "EL" ∨ t = "RH" := by
  unfold balanceColumn at h
  by_cases h1 : (t == "CL") = true
  · exact Or.inl (by simpa using h1)
  · rw [if_neg h1] at h
    by_cases h2 : (t == "EL") = true
    · exact Or.inr (Or.inl (by simpa using h2))
    · rw [if_neg h2] at h
      by_cases h3 : (t == "RH") = true
      · exact Or.inr (Or.inr (by simpa using h3))
      · rw [if_neg h3] at h
        exact absurd h (by simp)

theorem balanceColumnUpper_of_balanceColumn (t : String) (c : BalCol)
    (h : balanceColumn t = some c) : balanceColumnUpper t = some c := by
  rcases balanceColumn_mapped_cases t c h with rfl | rfl | rfl
  · rw [← h]; decide
  · rw [← h]; decide
  · rw [← h]; decide

theorem dbWF_spec (db : DB) :
    dbWF db = true ↔
      nodupIds db.leaves = true ∧
        (db.leaves.all fun l => l.id < db.nextId) = true ∧
        db.leaves.all leafCanonical = true := by
  simp [dbWF, Bool.and_eq_true, and_assoc]

theorem find?_eq_some_of_unique {α : Type} (p : α → Bool) (xs : List α)
    (x₀ : α) (hle : xs.countP p ≤ 1) (hmem : x₀ ∈ xs) (hp : p x₀ = true) :
    xs.find? p = some x₀ := by
  induction xs with
  | nil => simp at hmem
  | cons x xs ih =>
    rw [List.countP_cons] at hle
    by_cases hx : p x = true
    · rw [List.find?_cons_of_pos _ hx]
      rcases List.mem_cons.mp hmem with h | h
      · rw [h]
      · exfalso
        have hpos : 0 < xs.countP p := List.countP_pos_iff.mpr ⟨x₀, h, hp⟩
        rw [if_pos hx] at hle
        omega
    · rw [List.find?_cons_of_neg _ hx]
      rcases List.mem_cons.mp hmem with h | h
      · subst h; exact absurd hp hx
      · exact ih (by rw [if_neg hx] at hle; omega) h

theorem nodupIds_append_one (xs : List Leave) (l : Leave) :
    nodupIds (xs ++ [l]) =
      ((xs.all fun x => !(x.id == l.id)) && nodupIds xs) := by
  induction xs with
  | nil => simp [nodupIds, nodupIds_cons]
  | cons x xs ih =>
    rw [List.cons_append, nodupIds_cons, ih, List.all_cons, nodupIds_cons,
      List.all_append]
    simp only [List.all_cons, List.all_nil, Bool.and_true]
    cases hx : x.id == l.id with
    | false =>
      have : (l.id == x.id) = false := by
        simp only [beq_eq_false_iff_ne, ne_eq] at hx ⊢
        exact fun hh => hx hh.symm
      rw [this]
      cases xs.all fun z => !(z.id == x.id) <;>
        cases xs.all fun z => !(z.id == l.id) <;>
        cases nodupIds xs <;> rfl
    | true =>
      have : (l.id == x.id) = true := by
        simp only [beq_iff_eq] at hx ⊢
        exact hx.symm
      rw [this]
      cases xs.all fun z => !(z.id == x.id) <;>
        cases xs.all fun z => !(z.id == l.id) <;>
        cases nodupIds xs <;> rfl

theorem pending_ne_approved : (("Pending" : String) == "Approved") = false := by
  decide

theorem cancelled_ne_approved :
    (("Cancelled" : String) == "Approved") = false := by decide

theorem rejected_ne_approved :
    (("Rejected" : String) == "Approved") = false := by decide

/-! ## Per-operation preservation of well-formedness and of the ledger -/

theorem approveLeave_preserves (db : DB) (i : Nat) (now : Int) (x : String)
    (db' : DB) (hwf : dbWF db = true) (h : approveLeave db i now x = .ok db') :
    dbWF db' = true ∧ ∀ eid col', ledgerOf db' eid col' = ledgerOf db eid col' := by
  obtain ⟨hnd, hbound, hcanon⟩ := (dbWF_spec db).mp hwf
  unfold approveLeave at h
  cases hL : db.leaves.find? fun l => l.id == i with
  | none => rw [hL] at h; exact absurd h (by simp)
  | some leave =>
  rw [hL] at h
  simp only [] at h
  cases hE1 : db.employees.find? fun e => e.employee_id == leave.employee_id with
  | none => rw [hE1] at h; exact absurd h (by simp)
  | some e1 =>
  rw [hE1] at h
  simp only [] at h
  by_cases hs : (strLower (strTrim leave.status) == "approved") = true
  · rw [if_pos hs] at h; exact absurd h (by simp)
  rw [if_neg hs] at h
  cases hc : balanceColumn leave.type with
  | none => rw [hc] at h; exact absurd h (by simp)
  | some col =>
  rw [hc] at h
  simp only [] at h
  by_cases hb : e1.getBal col < leave.days
  · rw [if_pos hb] at h; exact absurd h (by simp)
  rw [if_neg hb] at h
  simp only [Except.ok.injEq] at h
  subst h
  have hcnt1 : db.leaves.countP (fun l => l.id == i) = 1 :=
    countP_eq_one_of_find _ _ _ (countP_id_le_one _ _ hnd) hL
  have hsA : (leave.status == "Approved") = false :=
    beq_approved_false_of_trim_guard _ (by
      cases hg : strLower (strTrim leave.status) == "approved" with
      | false => rfl
      | true => exact absurd hg hs)
  have hup := balanceColumnUpper_of_balanceColumn _ _ hc
  constructor
  · rw [dbWF_spec]
    refine ⟨?_, ?_, ?_⟩
    · show nodupIds (updateWhere (fun l => l.id == i) (setApproved now)
        db.leaves) = true
      rw [nodupIds_updateWhere _ (setApproved now) (fun l => rfl)]; exact hnd
    · show (updateWhere (fun l => l.id == i) (setApproved now)
        db.leaves).all (fun l => l.id < db.nextId) = true
      rw [all_updateWhere_eq (fun l => l.id == i) (setApproved now)
        (fun l => l.id < db.nextId) (fun l => rfl)]
      exact hbound
    · show (updateWhere (fun l => l.id == i) (setApproved now)
        db.leaves).all leafCanonical = true
      exact all_updateWhere_of_unique _ _ _ _ leave
        (eq_of_countP_le_one _ _ _ (le_of_eq hcnt1) hL) hcanon
        (by simp [leafCanonical, setApproved, hup, hc])
  · intro eid col'
    simp only [ledgerOf]
    rw [find?_updateWhere_comm (fun e : Employee => e.employee_id == leave.employee_id)
      (fun e : Employee => e.debit col leave.days)
      (fun e : Employee => e.employee_id == eid)
      (fun e => by
        show ((e.debit col leave.days).employee_id == eid) = (e.employee_id == eid)
        rw [debit_employee_id])]
    cases hq2 : db.employees.find? fun e => e.employee_id == eid with
    | none => rfl
    | some e =>
    have heq : e.employee_id = eid := by simpa using List.find?_some hq2
    have hsum := sum_map_updateWhere (fun l => l.id == i) (setApproved now)
      (contribFor eid col') db.leaves leave hL hcnt1
    have hold : contribFor eid col' leave = 0 := by
      simp [contribFor, hsA]
    simp only [Option.map_map, Option.map_some, Function.comp]
    show some ((if e.employee_id == leave.employee_id
        then e.debit col leave.days else e).getBal col' +
      approvedDays (updateWhere (fun l => l.id == i) (setApproved now)
        db.leaves) eid col') = _
    unfold approvedDays
    rw [hsum, hold]
    by_cases he : leave.employee_id = eid
    · have hpe : (e.employee_id == leave.employee_id) = true := by
        rw [heq, he]
        exact beq_self_eq_true eid
      rw [if_pos hpe]
      by_cases hcc : col = col'
      · subst hcc
        have hnew : contribFor eid col (setApproved now leave) = leave.days := by
          simp [contribFor, setApproved, he, hc]
        rw [getBal_debit, hnew, if_pos rfl]
        congr 1
        ring
      · have hnew : contribFor eid col' (setApproved now leave) = 0 := by
          have hne : (balanceColumn leave.type == some col') = false := by
            rw [hc]
            simp [hcc]
          simp [contribFor, setApproved, hne]
        rw [getBal_debit, hnew, if_neg (fun hx : col' = col => hcc hx.symm)]
        congr 1
        ring
    · have hpe : (e.employee_id == leave.employee_id) = false := by
        rw [heq]
        simp only [beq_eq_false_iff_ne, ne_eq]
        exact fun hx => he hx.symm
      rw [if_neg (by rw [hpe]; exact Bool.false_ne_true)]
      have hnew : contribFor eid col' (setApproved now leave) = 0 := by
        simp [contribFor, setApproved, he]
      rw [hnew]
      congr 1
      ring

theorem cancelLeave_preserves (db : DB) (i : Nat) (now : Int) (db' : DB)
    (hwf : dbWF db = true) (h : cancelLeave db i now = .ok db') :
    dbWF db' = true ∧ ∀ eid col', ledgerOf db' eid col' = ledgerOf db eid col' := by
  obtain ⟨hnd, hbound, hcanon⟩ := (dbWF_spec db).mp hwf
  unfold cancelLeave at h
  cases hL : db.leaves.find? fun l => l.id == i with
  | none => rw [hL] at h; exact absurd h (by simp)
  | some leave =>
  rw [hL] at h
  simp only [] at h
  by_cases hcanc : (leave.status == "Cancelled") = true
  · rw [if_pos hcanc] at h; exact absurd h (by simp)
  rw [if_neg hcanc] at h
  have hcnt1 : db.leaves.countP (fun l => l.id == i) = 1 :=
    countP_eq_one_of_find _ _ _ (countP_id_le_one _ _ hnd) hL
  have hcmem := (List.all_eq_true).mp hcanon leave (List.mem_of_find?_eq_some hL)
  have hlc : (strLower "Cancelled" == "approved") = false := by decide
  have hcanc_new : leafCanonical (setCancelledDirect now leave) = true := by
    unfold leafCanonical at hcmem
    unfold leafCanonical setCancelledDirect
    simp only []
    by_cases hcr : (strLower leave.cancel_request_status == "pending") = true
    · rw [hcr] at hcmem ⊢
      simp only [Bool.or_true, Bool.not_true, Bool.false_or] at hcmem ⊢
      exact hcmem
    · have hcr' : (strLower leave.cancel_request_status == "pending") = false := by
        cases hx : strLower leave.cancel_request_status == "pending" with
        | false => rfl
        | true => exact absurd hx hcr
      rw [hcr', hlc]
      rfl
  by_cases happ : (leave.status == "Approved") = true
  · rw [if_pos happ] at h
    cases hc : balanceColumn leave.type with
    | none => rw [hc] at h; exact absurd h (by simp)
    | some col =>
    rw [hc] at h
    simp only [Except.ok.injEq] at h
    subst h
    constructor
    · rw [dbWF_spec]
      refine ⟨?_, ?_, ?_⟩
      · show nodupIds (updateWhere (fun l => l.id == i) (setCancelledDirect now)
          db.leaves) = true
        rw [nodupIds_updateWhere _ (setCancelledDirect now) (fun l => rfl)]
        exact hnd
      · show (updateWhere (fun l => l.id == i) (setCancelledDirect now)
          db.leaves).all (fun l => l.id < db.nextId) = true
        rw [all_updateWhere_eq (fun l => l.id == i) (setCancelledDirect now)
          (fun l => l.id < db.nextId) (fun l => rfl)]
        exact hbound
      · show (updateWhere (fun l => l.id == i) (setCancelledDirect now)
          db.leaves).all leafCanonical = true
        exact all_updateWhere_of_unique _ _ _ _ leave
          (eq_of_countP_le_one _ _ _ (le_of_eq hcnt1) hL) hcanon
          hcanc_new
    · intro eid col'
      simp only [ledgerOf]
      rw [find?_updateWhere_comm (fun e : Employee => e.employee_id == leave.employee_id)
        (fun e : Employee => e.credit col leave.days)
        (fun e : Employee => e.employee_id == eid)
        (fun e => by
          show ((e.credit col leave.days).employee_id == eid) = (e.employee_id == eid)
          rw [credit_employee_id])]
      cases hq2 : db.employees.find? fun e => e.employee_id == eid with
      | none => rfl
      | some e =>
      have heq : e.employee_id = eid := by simpa using List.find?_some hq2
      have hsum := sum_map_updateWhere (fun l => l.id == i) (setCancelledDirect now)
        (contribFor eid col') db.leaves leave hL hcnt1
      have hnew : contribFor eid col' (setCancelledDirect now leave) = 0 := by
        simp [contribFor, setCancelledDirect, cancelled_ne_approved]
      simp only [Option.map_map, Option.map_some, Function.comp]
      show some ((if e.employee_id == leave.employee_id
          then e.credit col leave.days else e).getBal col' +
        approvedDays (updateWhere (fun l => l.id == i) (setCancelledDirect now)
          db.leaves) eid col') = _
      unfold approvedDays
      rw [hsum, hnew]
      by_cases he : leave.employee_id = eid
      · have hpe : (e.employee_id == leave.employee_id) = true := by
          rw [heq, he]
          exact beq_self_eq_true eid
        rw [if_pos hpe]
        by_cases hcc : col = col'
        · subst hcc
          have hold : contribFor eid col leave = leave.days := by
            have happ' : leave.status = "Approved" := by simpa using happ
            simp [contribFor, he, happ', hc]
          rw [getBal_credit, hold, if_pos rfl]
          congr 1
          ring
        · have hold : contribFor eid col' leave = 0 := by
            have hne : (balanceColumn leave.type == some col') = false := by
              rw [hc]
              simp [hcc]
            simp [contribFor, hne]
          rw [getBal_credit, hold, if_neg (fun hx : col' = col => hcc hx.symm)]
          congr 1
          ring
      · have hpe : (e.employee_id == leave.employee_id) = false := by
          rw [heq]
          simp only [beq_eq_false_iff_ne, ne_eq]
          exact fun hx => he hx.symm
        rw [if_neg (by rw [hpe]; exact Bool.false_ne_true)]
        have hold : contribFor eid col' leave = 0 := by
          simp [contribFor, he]
        rw [hold]
        congr 1
        ring
  · rw [if_neg happ] at h
    simp only [Except.ok.injEq] at h
    subst h
    have happ' : (leave.status == "Approved") = false := by
      cases hx : leave.status == "Approved" with
      | false => rfl
      | true => exact absurd hx happ
    constructor
    · rw [dbWF_spec]
      refine ⟨?_, ?_, ?_⟩
      · show nodupIds (updateWhere (fun l => l.id == i) (setCancelledDirect now)
          db.leaves) = true
        rw [nodupIds_updateWhere _ (setCancelledDirect now) (fun l => rfl)]
        exact hnd
      · show (updateWhere (fun l => l.id == i) (setCancelledDirect now)
          db.leaves).all (fun l => l.id < db.nextId) = true
        rw [all_updateWhere_eq (fun l => l.id == i) (setCancelledDirect now)
          (fun l => l.id < db.nextId) (fun l => rfl)]
        exact hbound
      · show (updateWhere (fun l => l.id == i) (setCancelledDirect now)
          db.leaves).all leafCanonical = true
        exact all_updateWhere_of_unique _ _ _ _ leave
          (eq_of_countP_le_one _ _ _ (le_of_eq hcnt1) hL) hcanon
          hcanc_new
    · intro eid col'
      simp only [ledgerOf]
      cases hq2 : db.employees.find? fun e => e.employee_id == eid with
      | none => rfl
      | some e =>
      have hsum := sum_map_updateWhere (fun l => l.id == i) (setCancelledDirect now)
        (contribFor eid col') db.leaves leave hL hcnt1
      have hnew : contribFor eid col' (setCancelledDirect now leave) = 0 := by
        simp [contribFor, setCancelledDirect, cancelled_ne_approved]
      have hold : contribFor eid col' leave = 0 := by
        simp [contribFor, happ']
      show some (e.getBal col' +
        approvedDays (updateWhere (fun l => l.id == i) (setCancelledDirect now)
          db.leaves) eid col') = _
      unfold approvedDays
      rw [hsum, hnew, hold]
      congr 1
      ring

theorem requestCancellation_preserves (db : DB) (i : Nat)
    (employeeId cancelReason : String) (now : Int) (x : String) (db' : DB)
    (hwf : dbWF db = true)
    (h : requestCancellation db i employeeId cancelReason now x = .ok db') :
    dbWF db' = true ∧ ∀ eid col', ledgerOf db' eid col' = ledgerOf db eid col' := by
  obtain ⟨hnd, hbound, hcanon⟩ := (dbWF_spec db).mp hwf
  unfold requestCancellation at h
  cases hL : db.leaves.find? fun l => l.id == i && l.employee_id == employeeId with
  | none => rw [hL] at h; exact absurd h (by simp)
  | some leave =>
  rw [hL] at h
  simp only [] at h
  cases hs : strLower leave.status == "approved" with
  | false =>
    rw [hs] at h
    exact absurd h (by simp)
  | true =>
  rw [hs] at h
  simp only [Bool.not_true] at h
  rw [if_neg Bool.false_ne_true] at h
  by_cases hcr : (strLower leave.cancel_request_status == "pending") = true
  · rw [if_pos hcr] at h; exact absurd h (by simp)
  rw [if_neg hcr] at h
  simp only [Except.ok.injEq] at h
  subst h
  have hpid : (leave.id == i) = true := by
    have := List.find?_some hL
    rw [Bool.and_eq_true] at this
    exact this.1
  have hmem := List.mem_of_find?_eq_some hL
  have hLp : db.leaves.find? (fun l => l.id == i) = some leave :=
    find?_eq_some_of_unique _ _ _ (countP_id_le_one _ _ hnd) hmem hpid
  have hcnt1 : db.leaves.countP (fun l => l.id == i) = 1 :=
    countP_eq_one_of_find _ _ _ (countP_id_le_one _ _ hnd) hLp
  have hcmem := (List.all_eq_true).mp hcanon leave hmem
  have hcons : (balanceColumnUpper leave.type == balanceColumn leave.type) = true := by
    unfold leafCanonical at hcmem
    rw [hs] at hcmem
    simpa using hcmem
  constructor
  · rw [dbWF_spec]
    refine ⟨?_, ?_, ?_⟩
    · show nodupIds (updateWhere (fun l => l.id == i)
        (setCancelRequested cancelReason) db.leaves) = true
      rw [nodupIds_updateWhere _ (setCancelRequested cancelReason) (fun l => rfl)]
      exact hnd
    · show (updateWhere (fun l => l.id == i) (setCancelRequested cancelReason)
        db.leaves).all (fun l => l.id < db.nextId) = true
      rw [all_updateWhere_eq (fun l => l.id == i) (setCancelRequested cancelReason)
        (fun l => l.id < db.nextId) (fun l => rfl)]
      exact hbound
    · show (updateWhere (fun l => l.id == i) (setCancelRequested cancelReason)
        db.leaves).all leafCanonical = true
      refine all_updateWhere_of_unique _ _ _ _ leave
        (eq_of_countP_le_one _ _ _ (le_of_eq hcnt1) hLp) hcanon ?_
      unfold leafCanonical setCancelRequested
      simp only []
      rw [hs, hcons]
      rfl
  · intro eid' col'
    simp only [ledgerOf]
    have hA : approvedDays (updateWhere (fun l => l.id == i)
        (setCancelRequested cancelReason) db.leaves) eid' col' =
        approvedDays db.leaves eid' col' := by
      unfold approvedDays
      rw [map_updateWhere_eq (fun l => l.id == i) (setCancelRequested cancelReason)
        (contribFor eid' col') (fun l => rfl) db.leaves]
    rw [hA]

theorem rejectCancellation_preserves (db : DB) (i : Nat)
    (remarks : String) (now : Int) (x : String) (db' : DB)
    (hwf : dbWF db = true)
    (h : rejectCancellation db i remarks now x = .ok db') :
    dbWF db' = true ∧ ∀ eid col', ledgerOf db' eid col' = ledgerOf db eid col' := by
  obtain ⟨hnd, hbound, hcanon⟩ := (dbWF_spec db).mp hwf
  unfold rejectCancellation at h
  cases hL : db.leaves.find? fun l => l.id == i with
  | none => rw [hL] at h; exact absurd h (by simp)
  | some leave =>
  rw [hL] at h
  simp only [] at h
  cases hcr : strLower leave.cancel_request_status == "pending" with
  | false =>
    rw [hcr] at h
    exact absurd h (by simp)
  | true =>
  rw [hcr] at h
  simp only [Bool.not_true] at h
  rw [if_neg Bool.false_ne_true] at h
  simp only [Except.ok.injEq] at h
  subst h
  have hcnt1 : db.leaves.countP (fun l => l.id == i) = 1 :=
    countP_eq_one_of_find _ _ _ (countP_id_le_one _ _ hnd) hL
  have hcmem := (List.all_eq_true).mp hcanon leave (List.mem_of_find?_eq_some hL)
  have hrejp : (strLower "Rejected" == "pending") = false := by decide
  constructor
  · rw [dbWF_spec]
    refine ⟨?_, ?_, ?_⟩
    · show nodupIds (updateWhere (fun l => l.id == i)
        (setCancelVerdictRejected remarks) db.leaves) = true
      rw [nodupIds_updateWhere _ (setCancelVerdictRejected remarks) (fun l => rfl)]
      exact hnd
    · show (updateWhere (fun l => l.id == i) (setCancelVerdictRejected remarks)
        db.leaves).all (fun l => l.id < db.nextId) = true
      rw [all_updateWhere_eq (fun l => l.id == i) (setCancelVerdictRejected remarks)
        (fun l => l.id < db.nextId) (fun l => rfl)]
      exact hbound
    · show (updateWhere (fun l => l.id == i) (setCancelVerdictRejected remarks)
        db.leaves).all leafCanonical = true
      refine all_updateWhere_of_unique _ _ _ _ leave
        (eq_of_countP_le_one _ _ _ (le_of_eq hcnt1) hL) hcanon ?_
      unfold leafCanonical at hcmem
      unfold leafCanonical setCancelVerdictRejected
      simp only []
      rw [hrejp]
      by_cases hs : (strLower leave.status == "approved") = true
      · rw [hs] at hcmem ⊢
        simp only [Bool.true_or, Bool.not_true, Bool.false_or] at hcmem ⊢
        exact hcmem
      · have hs' : (strLower leave.status == "approved") = false := by
          cases hx : strLower leave.status == "approved" with
          | false => rfl
          | true => exact absurd hx hs
        rw [hs']
        rfl
  · intro eid' col'
    simp only [ledgerOf]
    have hA : approvedDays (updateWhere (fun l => l.id == i)
        (setCancelVerdictRejected remarks) db.leaves) eid' col' =
        approvedDays db.leaves eid' col' := by
      unfold approvedDays
      rw [map_updateWhere_eq (fun l => l.id == i) (setCancelVerdictRejected remarks)
        (contribFor eid' col') (fun l => rfl) db.leaves]
    rw [hA]

theorem approveCancellation_preserves (db : DB) (i : Nat) (now : Int)
    (x : String) (db' : DB) (hwf : dbWF db = true)
    (hsafe : safeOp db (.approveCancel i now x) = true)
    (h : approveCancellation db i now x = .ok db') :
    dbWF db' = true ∧ ∀ eid col', ledgerOf db' eid col' = ledgerOf db eid col' := by
  obtain ⟨hnd, hbound, hcanon⟩ := (dbWF_spec db).mp hwf
  unfold approveCancellation at h
  unfold safeOp at hsafe
  simp only [] at hsafe
  cases hL : db.leaves.find? fun l => l.id == i with
  | none => rw [hL] at h; exact absurd h (by simp)
  | some leave =>
  rw [hL] at h
  rw [hL] at hsafe
  simp only [] at h
  simp only [] at hsafe
  cases hcr : strLower leave.cancel_request_status == "pending" with
  | false =>
    rw [hcr] at h
    exact absurd h (by simp)
  | true =>
  rw [hcr] at h
  simp only [Bool.not_true] at h
  rw [if_neg Bool.false_ne_true] at h
  rw [hcr] at hsafe
  simp only [Bool.not_true, Bool.false_or] at hsafe
  have happ : (leave.status == "Approved") = true := hsafe
  have hcnt1 : db.leaves.countP (fun l => l.id == i) = 1 :=
    countP_eq_one_of_find _ _ _ (countP_id_le_one _ _ hnd) hL
  have hcmem := (List.all_eq_true).mp hcanon leave (List.mem_of_find?_eq_some hL)
  have hcons : (balanceColumnUpper leave.type == balanceColumn leave.type) = true := by
    unfold leafCanonical at hcmem
    rw [hcr] at hcmem
    simpa using hcmem
  have hcanon_new : leafCanonical (setCancelVerdictApproved now leave) = true := by
    unfold leafCanonical setCancelVerdictApproved
    simp only []
    rw [(by decide : (strLower "Cancelled" == "approved") = false),
      (by decide : (strLower "Approved" == "pending") = false)]
    rfl
  have hwf' : dbWF { db with
      leaves := updateWhere (fun l => l.id == i) (setCancelVerdictApproved now)
        db.leaves } = true := by
    rw [dbWF_spec]
    refine ⟨?_, ?_, ?_⟩
    · show nodupIds (updateWhere (fun l => l.id == i)
        (setCancelVerdictApproved now) db.leaves) = true
      rw [nodupIds_updateWhere _ (setCancelVerdictApproved now) (fun l => rfl)]
      exact hnd
    · show (updateWhere (fun l => l.id == i) (setCancelVerdictApproved now)
        db.leaves).all (fun l => l.id < db.nextId) = true
      rw [all_updateWhere_eq (fun l => l.id == i) (setCancelVerdictApproved now)
        (fun l => l.id < db.nextId) (fun l => rfl)]
      exact hbound
    · show (updateWhere (fun l => l.id == i) (setCancelVerdictApproved now)
        db.leaves).all leafCanonical = true
      exact all_updateWhere_of_unique _ _ _ _ leave
        (eq_of_countP_le_one _ _ _ (le_of_eq hcnt1) hL) hcanon hcanon_new
  cases hup : balanceColumnUpper leave.type with
  | none =>
    rw [hup] at h
    simp only [Except.ok.injEq] at h
    subst h
    have hbc : balanceColumn leave.type = none := by
      rw [hup] at hcons
      have := (beq_iff_eq).mp hcons
      exact this.symm
    constructor
    · exact hwf'
    · intro eid' col'
      simp only [ledgerOf]
      have hA : approvedDays (updateWhere (fun l => l.id == i)
          (setCancelVerdictApproved now) db.leaves) eid' col' =
          approvedDays db.leaves eid' col' := by
        unfold approvedDays
        have hsum := sum_map_updateWhere (fun l => l.id == i)
          (setCancelVerdictApproved now) (contribFor eid' col') db.leaves leave
          hL hcnt1
        have hold : contribFor eid' col' leave = 0 := by
          have : (balanceColumn leave.type == some col') = false := by
            rw [hbc]; rfl
          simp [contribFor, this]
        have hnew : contribFor eid' col' (setCancelVerdictApproved now leave) = 0 := by
          simp [contribFor, setCancelVerdictApproved, cancelled_ne_approved]
        rw [hsum, hold, hnew]
        ring
      rw [hA]
  | some col =>
  rw [hup] at h
  simp only [Except.ok.injEq] at h
  subst h
  have hbc : balanceColumn leave.type = some col := by
    rw [hup] at hcons
    exact ((beq_iff_eq).mp hcons).symm
  constructor
  · exact hwf'
  · intro eid' col'
    simp only [ledgerOf]
    rw [find?_updateWhere_comm (fun e : Employee => e.employee_id == leave.employee_id)
      (fun e : Employee => e.credit col leave.days)
      (fun e : Employee => e.employee_id == eid')
      (fun e => by
        show ((e.credit col leave.days).employee_id == eid') = (e.employee_id == eid')
        rw [credit_employee_id])]
    cases hq2 : db.employees.find? fun e => e.employee_id == eid' with
    | none => rfl
    | some e =>
    have heq : e.employee_id = eid' := by simpa using List.find?_some hq2
    have hsum := sum_map_updateWhere (fun l => l.id == i)
      (setCancelVerdictApproved now) (contribFor eid' col') db.leaves leave hL hcnt1
    have hnew : contribFor eid' col' (setCancelVerdictApproved now leave) = 0 := by
      simp [contribFor, setCancelVerdictApproved, cancelled_ne_approved]
    simp only [Option.map_map, Option.map_some, Function.comp]
    show some ((if e.employee_id == leave.employee_id
        then e.credit col leave.days else e).getBal col' +
      approvedDays (updateWhere (fun l => l.id == i) (setCancelVerdictApproved now)
        db.leaves) eid' col') = _
    unfold approvedDays
    rw [hsum, hnew]
    by_cases he : leave.employee_id = eid'
    · have hpe : (e.employee_id == leave.employee_id) = true := by
        rw [heq, he]
        exact beq_self_eq_true eid'
      rw [if_pos hpe]
      by_cases hcc : col = col'
      · subst hcc
        have hold : contribFor eid' col leave = leave.days := by
          have happ' : leave.status = "Approved" := by simpa using happ
          simp [contribFor, he, happ', hbc]
        rw [getBal_credit, hold, if_pos rfl]
        congr 1
        ring
      · have hold : contribFor eid' col' leave = 0 := by
          have hne : (balanceColumn leave.type == some col') = false := by
            rw [hbc]
            simp [hcc]
          simp [contribFor, hne]
        rw [getBal_credit, hold, if_neg (fun hx : col' = col => hcc hx.symm)]
        congr 1
        ring
    · have hpe : (e.employee_id == leave.employee_id) = false := by
        rw [heq]
        simp only [beq_eq_false_iff_ne, ne_eq]
        exact fun hx => he hx.symm
      rw [if_neg (by rw [hpe]; exact Bool.false_ne_true)]
      have hold : contribFor eid' col' leave = 0 := by
        simp [contribFor, he]
      rw [hold]
      congr 1
      ring

theorem cancelApproved_preserves (db : DB) (i : Nat) (eid : String)
    (cancelReason : String) (today : Int) (db' : DB) (hwf : dbWF db = true)
    (h : cancelApproved db (some i) (some eid) cancelReason today = .ok db') :
    dbWF db' = true ∧ ∀ eid' col', ledgerOf db' eid' col' = ledgerOf db eid' col' := by
  obtain ⟨hnd, hbound, hcanon⟩ := (dbWF_spec db).mp hwf
  unfold cancelApproved at h
  simp only [] at h
  by_cases heid : (eid == "") = true
  · rw [if_pos heid] at h; exact absurd h (by simp)
  rw [if_neg heid] at h
  cases hL : db.leaves.find?
      (fun l => l.id == i && l.employee_id == eid && l.status == "Approved") with
  | none => rw [hL] at h; exact absurd h (by simp)
  | some leave =>
  rw [hL] at h
  simp only [] at h
  cases had : leave.approved_date with
  | none => rw [had] at h; exact absurd h (by simp)
  | some ad =>
  rw [had] at h
  simp only [] at h
  by_cases hw : today - ad > msWindow
  · rw [if_pos hw] at h; exact absurd h (by simp)
  rw [if_neg hw] at h
  by_cases hst : leave.start_date.getD 0 ≤ today
  · rw [if_pos hst] at h; exact absurd h (by simp)
  rw [if_neg hst] at h
  simp only [Except.ok.injEq] at h
  subst h
  have hfull := List.find?_some hL
  rw [Bool.and_eq_true] at hfull
  obtain ⟨hido, happ⟩ := hfull
  rw [Bool.and_eq_true] at hido
  obtain ⟨hid, hown'⟩ := hido
  have hown : leave.employee_id = eid := by simpa using hown'
  subst hown
  have hmem := List.mem_of_find?_eq_some hL
  have hple : db.leaves.countP
      (fun l => l.id == i && l.employee_id == leave.employee_id) ≤ 1 := by
    refine le_trans (countP_le_of_imp _ (fun l => l.id == i) _ ?_)
      (countP_id_le_one _ _ hnd)
    intro l hl
    rw [Bool.and_eq_true] at hl
    exact hl.1
  have hLp : db.leaves.find?
      (fun l => l.id == i && l.employee_id == leave.employee_id) = some leave :=
    find?_eq_some_of_unique _ _ _ hple hmem
      (by rw [Bool.and_eq_true]; exact ⟨hid, beq_self_eq_true _⟩)
  have hcnt1 : db.leaves.countP
      (fun l => l.id == i && l.employee_id == leave.employee_id) = 1 :=
    countP_eq_one_of_find _ _ _ hple hLp
  have hcmem := (List.all_eq_true).mp hcanon leave hmem
  have hcons : (balanceColumnUpper leave.type == balanceColumn leave.type) = true := by
    unfold leafCanonical at hcmem
    rw [lower_approved_of_beq _ happ] at hcmem
    simpa using hcmem
  have hcanon_new :
      leafCanonical (setCancelledGuarded cancelReason today leave) = true := by
    unfold leafCanonical setCancelledGuarded
    simp only []
    rw [(by decide : (strLower "Cancelled" == "approved") = false)]
    cases hcrx : strLower leave.cancel_request_status == "pending" with
    | false => rfl
    | true => rw [hcons]; simp
  have hwfL : ∀ (es : List Employee) (ns : List Notification),
      dbWF (DB.mk es
        (updateWhere (fun l => l.id == i && l.employee_id == leave.employee_id)
          (setCancelledGuarded cancelReason today) db.leaves)
        ns db.nextId) = true := by
    intro es ns
    rw [dbWF_spec]
    refine ⟨?_, ?_, ?_⟩
    · show nodupIds (updateWhere (fun l => l.id == i && l.employee_id == leave.employee_id)
        (setCancelledGuarded cancelReason today) db.leaves) = true
      rw [nodupIds_updateWhere _ (setCancelledGuarded cancelReason today) (fun l => rfl)]
      exact hnd
    · show (updateWhere (fun l => l.id == i && l.employee_id == leave.employee_id)
        (setCancelledGuarded cancelReason today)
        db.leaves).all (fun l => l.id < db.nextId) = true
      rw [all_updateWhere_eq (fun l => l.id == i && l.employee_id == leave.employee_id)
        (setCancelledGuarded cancelReason today)
        (fun l => l.id < db.nextId) (fun l => rfl)]
      exact hbound
    · show (updateWhere (fun l => l.id == i && l.employee_id == leave.employee_id)
        (setCancelledGuarded cancelReason today)
        db.leaves).all leafCanonical = true
      exact all_updateWhere_of_unique _ _ _ _ leave
        (eq_of_countP_le_one _ _ _ (le_of_eq hcnt1) hLp) hcanon hcanon_new
  cases hup : balanceColumnUpper leave.type with
  | none =>
    have hbc : balanceColumn leave.type = none := by
      rw [hup] at hcons
      exact ((beq_iff_eq).mp hcons).symm
    constructor
    · exact hwfL _ _
    · intro eid' col'
      simp only [ledgerOf]
      have hA : approvedDays (updateWhere
          (fun l => l.id == i && l.employee_id == leave.employee_id)
          (setCancelledGuarded cancelReason today) db.leaves) eid' col' =
          approvedDays db.leaves eid' col' := by
        unfold approvedDays
        have hsum := sum_map_updateWhere
          (fun l => l.id == i && l.employee_id == leave.employee_id)
          (setCancelledGuarded cancelReason today) (contribFor eid' col')
          db.leaves leave hLp hcnt1
        have hold : contribFor eid' col' leave = 0 := by
          have hne : (balanceColumn leave.type == some col') = false := by
            rw [hbc]; rfl
          simp [contribFor, hne]
        have hnew : contribFor eid' col'
            (setCancelledGuarded cancelReason today leave) = 0 := by
          simp [contribFor, setCancelledGuarded, cancelled_ne_approved]
        rw [hsum, hold, hnew]
        ring
      rw [hA]
  | some col =>
  have hbc : balanceColumn leave.type = some col := by
    rw [hup] at hcons
    exact ((beq_iff_eq).mp hcons).symm
  constructor
  · exact hwfL _ _
  · intro eid' col'
    simp only [ledgerOf]
    rw [find?_updateWhere_comm (fun e : Employee => e.employee_id == leave.employee_id)
      (fun e : Employee => e.credit col leave.days)
      (fun e : Employee => e.employee_id == eid')
      (fun e => by
        show ((e.credit col leave.days).employee_id == eid') = (e.employee_id == eid')
        rw [credit_employee_id])]
    cases hq2 : db.employees.find? fun e => e.employee_id == eid' with
    | none => rfl
    | some e =>
    have heq : e.employee_id = eid' := by simpa using List.find?_some hq2
    have hsum := sum_map_updateWhere
      (fun l => l.id == i && l.employee_id == leave.employee_id)
      (setCancelledGuarded cancelReason today) (contribFor eid' col')
      db.leaves leave hLp hcnt1
    have hnew : contribFor eid' col'
        (setCancelledGuarded cancelReason today leave) = 0 := by
      simp [contribFor, setCancelledGuarded, cancelled_ne_approved]
    simp only [Option.map_map, Option.map_some, Function.comp]
    show some ((if e.employee_id == leave.employee_id
        then e.credit col leave.days else e).getBal col' +
      approvedDays (updateWhere
        (fun l => l.id == i && l.employee_id == leave.employee_id)
        (setCancelledGuarded cancelReason today) db.leaves) eid' col') = _
    unfold approvedDays
    rw [hsum, hnew]
    by_cases he : leave.employee_id = eid'
    · have hpe : (e.employee_id == leave.employee_id) = true := by
        rw [heq, he]
        exact beq_self_eq_true eid'
      rw [if_pos hpe]
      by_cases hcc : col = col'
      · subst hcc
        have hold : contribFor eid' col leave = leave.days := by
          have happ' : leave.status = "Approved" := by simpa using happ
          simp [contribFor, he, happ', hbc]
        rw [getBal_credit, hold, if_pos rfl]
        congr 1
        ring
      · have hold : contribFor eid' col' leave = 0 := by
          have hne : (balanceColumn leave.type == some col') = false := by
            rw [hbc]
            simp [hcc]
          simp [contribFor, hne]
        rw [getBal_credit, hold, if_neg (fun hx : col' = col => hcc hx.symm)]
        congr 1
        ring
    · have hpe : (e.employee_id == leave.employee_id) = false := by
        rw [heq]
        simp only [beq_eq_false_iff_ne, ne_eq]
        exact fun hx => he hx.symm
      rw [if_neg (by rw [hpe]; exact Bool.false_ne_true)]
      have hold : contribFor eid' col' leave = 0 := by
        simp [contribFor, he]
      rw [hold]
      congr 1
      ring

theorem dbWF_append_submit (db : DB) (leaf : Leave) (ns : List Notification)
    (hwf : dbWF db = true) (hid : leaf.id = db.nextId)
    (hcl : leafCanonical leaf = true) :
    dbWF (DB.mk db.employees (db.leaves ++ [leaf]) ns (db.nextId + 1)) = true := by
  obtain ⟨hnd, hbound, hcanon⟩ := (dbWF_spec db).mp hwf
  rw [dbWF_spec]
  refine ⟨?_, ?_, ?_⟩
  · show nodupIds (db.leaves ++ [leaf]) = true
    rw [nodupIds_append_one, Bool.and_eq_true]
    refine ⟨?_, hnd⟩
    rw [List.all_eq_true]
    intro y hy
    have hb := (List.all_eq_true).mp hbound y hy
    have hlt : y.id < db.nextId := of_decide_eq_true hb
    have : (y.id == leaf.id) = false := by
      rw [hid]
      simp only [beq_eq_false_iff_ne, ne_eq]
      omega
    rw [this]
    rfl
  · show ((db.leaves ++ [leaf]).all fun l => l.id < db.nextId + 1) = true
    rw [List.all_eq_true]
    intro y hy
    rcases List.mem_append.mp hy with hm | hm
    · have hb := (List.all_eq_true).mp hbound y hm
      have hlt : y.id < db.nextId := of_decide_eq_true hb
      exact decide_eq_true (by omega)
    · have : y = leaf := by simpa using hm
      subst this
      exact decide_eq_true (by omega)
  · show ((db.leaves ++ [leaf]).all leafCanonical) = true
    rw [List.all_append, Bool.and_eq_true]
    exact ⟨hcanon, by simp [hcl]⟩

theorem ledger_append_submit (db : DB) (leaf : Leave) (ns : List Notification)
    (hcontrib : ∀ eid col, contribFor eid col leaf = 0) (eid : String)
    (col : BalCol) :
    ledgerOf (DB.mk db.employees (db.leaves ++ [leaf]) ns (db.nextId + 1)) eid col =
      ledgerOf db eid col := by
  simp only [ledgerOf]
  have hA : approvedDays (db.leaves ++ [leaf]) eid col =
      approvedDays db.leaves eid col := by
    unfold approvedDays
    rw [List.map_append, List.sum_append]
    simp [hcontrib]
  rw [hA]

theorem submitLeave_preserves (db : DB) (eid t : String) (s e : Option Int)
    (r loc : String) (now : Int) (x : String) (hwf : dbWF db = true) :
    dbWF (submitLeave db eid t s e r loc now x true true).1 = true ∧
      ∀ eid' col',
        ledgerOf (submitLeave db eid t s e r loc now x true true).1 eid' col' =
          ledgerOf db eid' col' := by
  unfold submitLeave
  cases hE : db.employees.find? fun e => e.employee_id == eid with
  | none => exact ⟨hwf, fun _ _ => rfl⟩
  | some emp =>
  simp only []
  by_cases hd : (emp.designation == "") = true
  · rw [if_pos hd]
    exact ⟨hwf, fun _ _ => rfl⟩
  rw [if_neg hd]
  have hcl : leafCanonical (newLeaf db eid t s e r loc now emp) = true := by
    unfold leafCanonical newLeaf
    simp only []
    rw [(by decide : (strLower "Pending" == "approved") = false),
      (by decide : (strLower "" == "pending") = false)]
    rfl
  have hcontrib : ∀ eid' col',
      contribFor eid' col' (newLeaf db eid t s e r loc now emp) = 0 := by
    intro eid' col'
    simp [contribFor, newLeaf, pending_ne_approved]
  constructor
  · exact dbWF_append_submit db (newLeaf db eid t s e r loc now emp) _ hwf rfl hcl
  · intro eid' col'
    exact ledger_append_submit db (newLeaf db eid t s e r loc now emp) _
      hcontrib eid' col'

theorem applyOp_preserves (db : DB) (op : Op) (hwf : dbWF db = true)
    (hsafe : safeOp db op = true) :
    dbWF (applyOp db op) = true ∧
      ∀ eid col, ledgerOf (applyOp db op) eid col = ledgerOf db eid col := by
  cases op with
  | submit eid t s e r loc now x =>
    exact submitLeave_preserves db eid t s e r loc now x hwf
  | approve i now x =>
    unfold applyOp
    simp only []
    cases hres : approveLeave db i now x with
    | ok db' => exact approveLeave_preserves db i now x db' hwf hres
    | error err => exact ⟨hwf, fun _ _ => rfl⟩
  | cancel i now =>
    unfold applyOp
    simp only []
    cases hres : cancelLeave db i now with
    | ok db' => exact cancelLeave_preserves db i now db' hwf hres
    | error err => exact ⟨hwf, fun _ _ => rfl⟩
  | cancelApproved i eid r today =>
    unfold applyOp
    simp only []
    cases hres : cancelApproved db (some i) (some eid) r today with
    | ok db' => exact cancelApproved_preserves db i eid r today db' hwf hres
    | error err => exact ⟨hwf, fun _ _ => rfl⟩
  | requestCancel i eid r now x =>
    unfold applyOp
    simp only []
    cases hres : requestCancellation db i eid r now x with
    | ok db' => exact requestCancellation_preserves db i eid r now x db' hwf hres
    | error err => exact ⟨hwf, fun _ _ => rfl⟩
  | approveCancel i now x =>
    unfold applyOp
    simp only []
    cases hres : approveCancellation db i now x with
    | ok db' => exact approveCancellation_preserves db i now x db' hwf hsafe hres
    | error err => exact ⟨hwf, fun _ _ => rfl⟩
  | rejectCancel i r now x =>
    unfold applyOp
    simp only []
    cases hres : rejectCancellation db i r now x with
    | ok db' => exact rejectCancellation_preserves db i r now x db' hwf hres
    | error err => exact ⟨hwf, fun _ _ => rfl⟩

theorem runOps_preserves (ops : List Op) (db : DB) (hwf : dbWF db = true)
    (hsafe : safeRun db ops = true) :
    dbWF (runOps db ops) = true ∧
      ∀ eid col, ledgerOf (runOps db ops) eid col = ledgerOf db eid col := by
  induction ops generalizing db with
  | nil => exact ⟨hwf, fun _ _ => rfl⟩
  | cons op ops ih =>
    have hsafe' : (safeOp db op && safeRun (applyOp db op) ops) = true := hsafe
    rw [Bool.and_eq_true] at hsafe'
    obtain ⟨hwf1, hled1⟩ := applyOp_preserves db op hwf hsafe'.1
    obtain ⟨hwf2, hled2⟩ := ih (applyOp db op) hwf1 hsafe'.2
    refine ⟨hwf2, fun eid col => ?_⟩
    calc ledgerOf (runOps db (op :: ops)) eid col
        = ledgerOf (runOps (applyOp db op) ops) eid col := rfl
      _ = ledgerOf (applyOp db op) eid col := hled2 eid col
      _ = ledgerOf db eid col := hled1 eid col

/-! ## Claims -/

/-- C1 (counterexample): balance conservation fails as stated.  Submit a
two-day CL request, approve it, file a cancellation request, directly
cancel (restoring the balance and leaving the cancellation request
pending on the now-Cancelled row), then approve the stale cancellation
request: the balance is credited a second time.  Starting from the
default `cl_balance = 16` with no approved requests, the final balance
is `18` while the invariant demands `16 - 0 = 16`. -/
theorem C1_counterexample :
    dbWF db1 = true ∧
    approvedDays db1.leaves "E1" .cl = 0 ∧
    (db1.employees.find? fun e => e.employee_id == "E1") = some emp1 ∧
    ((runOps db1 doubleCreditOps).employees.find? fun e => e.employee_id == "E1") =
      some { emp1 with cl_balance := 18 } ∧
    approvedDays (runOps db1 doubleCreditOps).leaves "E1" .cl = 0 ∧
    ¬((18 : Int) = emp1.cl_balance - approvedDays (runOps db1 doubleCreditOps).leaves "E1" .cl) :=
  ⟨by decide, by decide, by decide, by decide, by decide, by decide⟩

/-- C1 (amended): for every employee and balance column, after any
sequence of submit / approve / direct-cancel / cancel-approved /
request-cancellation / approve-cancellation / reject-cancellation
operations in which every approve-cancellation is applied only while the
request's status is still Approved (`safeRun`), the balance column
equals its initial value minus the sum of `days` over the requests
currently Approved for that employee and column.  Without that
restriction the invariant fails (see the counterexample): the
approve-cancellation handler checks only `cancel_request_status` and can
credit a request that a direct cancel already credited. -/
theorem C1_balance_conservation (db : DB) (ops : List Op) (eid : String)
    (col : BalCol) (e0 eF : Employee)
    (hwf : dbWF db = true) (hsafe : safeRun db ops = true)
    (h0 : db.employees.find? (fun e => e.employee_id == eid) = some e0)
    (hinit : approvedDays db.leaves eid col = 0)
    (hF : (runOps db ops).employees.find? (fun e => e.employee_id == eid) = some eF) :
    eF.getBal col = e0.getBal col - approvedDays (runOps db ops).leaves eid col := by
  have hled := (runOps_preserves ops db hwf hsafe).2 eid col
  unfold ledgerOf at hled
  rw [h0, hF] at hled
  simp only [Option.map_some', Option.some.injEq] at hled
  rw [hinit] at hled
  omega

/-- C1 witness: a full submit → approve → request-cancellation →
approve-cancellation run on the sample database restores `cl_balance` to
its initial value with no approved requests left. -/
theorem C1_balance_conservation_witness :
    ((runOps db1 safeTwoStepOps).employees.find? fun e => e.employee_id == "E1") =
      some emp1 ∧
    emp1.getBal .cl =
      emp1.getBal .cl - approvedDays (runOps db1 safeTwoStepOps).leaves "E1" .cl :=
  ⟨by decide, C1_balance_conservation db1 safeTwoStepOps "E1" .cl emp1 emp1
    (by decide) (by decide) (by decide) (by decide) (by decide)⟩

/-- C2 (counterexample): the same request can be debited twice and
credited twice.  Submit, approve, cancel, approve again debits leave 1
twice (the approve guard only blocks a currently-Approved status);
submit, approve, request-cancellation, cancel, approve-cancellation
credits leave 1 twice (the stale Pending cancellation request is honoured
on the already-Cancelled row). -/
theorem C2_counterexample :
    countDebits db1 doubleDebitOps 1 = 2 ∧ countCredits db1 doubleCreditOps 1 = 2 :=
  ⟨by decide, by decide⟩

/-- C2 (amended): per-state once-guards.  While a request is Approved
(case-insensitively) a further approve cannot succeed, so it cannot be
debited again without first leaving the Approved state; once it is
Cancelled neither the direct cancel nor the guarded cancel-approved path
can credit it again; and approve-cancellation credits only when the
cancellation request is Pending and flips that sub-state to Approved, so
it cannot fire twice in a row.  (The original claim's "never more than
once per request over any sequence" is false: re-approval after a
cancellation debits again, and approve-cancellation after a direct
cancel credits again — see the counterexample.) -/
theorem C2_once_guards (db : DB) (i : Nat) (l : Leave) (now : Int)
    (x r eid2 : String) (today : Int)
    (hn : nodupIds db.leaves = true)
    (h : db.leaves.find? (fun ll => ll.id == i) = some l) :
    ((strLower (strTrim l.status) == "approved") = true →
      ∀ db', approveLeave db i now x ≠ .ok db') ∧
    (l.status = "Cancelled" →
      cancelLeave db i now = .error .alreadyCancelled) ∧
    (l.status = "Cancelled" →
      ∀ db', cancelApproved db (some i) (some eid2) r today ≠ .ok db') ∧
    ((strLower l.cancel_request_status == "pending") = false →
      approveCancellation db i now x = .error .noPendingCancellation) ∧
    (∀ db', approveCancellation db i now x = .ok db' →
      (db'.leaves.find? fun ll => ll.id == i) =
        some (setCancelVerdictApproved now l)) := by
  refine ⟨?_, ?_, ?_, ?_, ?_⟩
  · intro hs db' hok
    unfold approveLeave at hok
    rw [h] at hok
    simp only [] at hok
    cases hE : db.employees.find? fun e => e.employee_id == l.employee_id with
    | none => rw [hE] at hok; exact absurd hok (by simp)
    | some e1 =>
      rw [hE] at hok
      simp only [] at hok
      rw [if_pos hs] at hok
      exact absurd hok (by simp)
  · intro hst
    unfold cancelLeave
    rw [h]
    simp only []
    rw [if_pos (by rw [hst]; rfl)]
  · intro hst db' hok
    unfold cancelApproved at hok
    simp only [] at hok
    by_cases heid : (eid2 == "") = true
    · rw [if_pos heid] at hok; exact absurd hok (by simp)
    rw [if_neg heid] at hok
    have hnone : db.leaves.find?
        (fun ll => ll.id == i && ll.employee_id == eid2 && ll.status == "Approved") =
        none := by
      rw [List.find?_eq_none]
      intro y hy hp
      rw [Bool.and_eq_true, Bool.and_eq_true] at hp
      have hyl : y = l :=
        eq_of_countP_le_one _ _ _ (countP_id_le_one _ _ hn) h y hy hp.1.1
      subst hyl
      rw [hst] at hp
      exact absurd hp.2 (by decide)
    rw [hnone] at hok
    exact absurd hok (by simp)
  · intro hcr
    unfold approveCancellation
    rw [h]
    simp only []
    rw [hcr]
    simp only [Bool.not_false]
    rw [if_pos trivial]
  · intro db' hok
    unfold approveCancellation at hok
    rw [h] at hok
    simp only [] at hok
    by_cases hcr : (strLower l.cancel_request_status == "pending") = true
    · rw [hcr] at hok
      simp only [Bool.not_true] at hok
      rw [if_neg Bool.false_ne_true] at hok
      simp only [Except.ok.injEq] at hok
      subst hok
      rw [find?_updateWhere_comm (fun ll : Leave => ll.id == i)
        (setCancelVerdictApproved now) (fun ll : Leave => ll.id == i)
        (fun ll => rfl)]
      rw [h]
      have hli : (l.id == i) = true := by simpa using List.find?_some h
      simp only [Option.map_some', hli, if_true]
    · have hcr' : (strLower l.cancel_request_status == "pending") = false := by
        cases hc : strLower l.cancel_request_status == "pending" with
        | false => rfl
        | true => exact absurd hc hcr
      rw [hcr'] at hok
      exact absurd hok (by simp)

/-- C2 witness: on a database holding an already-Cancelled request, a
direct cancel is rejected with the already-cancelled error (no second
credit through that path). -/
theorem C2_once_guards_witness :
    cancelLeave dbC2 1 99 = .error .alreadyCancelled :=
  (C2_once_guards dbC2 1 (mkLeaf 1 "E1" "CL" 2 "Cancelled" "" none none) 99
    "web" "why" "E1" 0 (by decide) (by decide)).2.1 (by decide)

/-- C3: approval contract.  If the request exists (the approve SELECT
joins the owning employee, hence the employee row hypothesis), its
status is not already Approved under the trimmed case-insensitive check,
its type maps to a balance column, then: with balance at least `days`
the call succeeds, sets status to Approved and `approved_date`, and
debits exactly `days` from that column; with balance below `days` it
fails with the insufficient-balance error and leaves the database
exactly as it was. -/
theorem C3_approval_contract (db : DB) (i : Nat) (l : Leave) (e : Employee)
    (now : Int) (x : String) (col : BalCol)
    (hl : db.leaves.find? (fun ll => ll.id == i) = some l)
    (he : db.employees.find? (fun em => em.employee_id == l.employee_id) = some e)
    (hs : (strLower (strTrim l.status) == "approved") = false)
    (hcol : balanceColumn l.type = some col) :
    (l.days ≤ e.getBal col →
      ∃ db', approveLeave db i now x = .ok db' ∧
        (db'.leaves.find? fun ll => ll.id == i) = some (setApproved now l) ∧
        (setApproved now l).status = "Approved" ∧
        (setApproved now l).approved_date = some now ∧
        (db'.employees.find? fun em => em.employee_id == l.employee_id) =
          some (e.debit col l.days) ∧
        (e.debit col l.days).getBal col = e.getBal col - l.days) ∧
    (e.getBal col < l.days →
      approveLeave db i now x = .error .insufficientBalance ∧
      applyOp db (.approve i now x) = db) := by
  constructor
  · intro hble
    have hnl : ¬e.getBal col < l.days := not_lt.mpr hble
    have hok : approveLeave db i now x = .ok (DB.mk
        (updateWhere (fun em : Employee => em.employee_id == l.employee_id)
          (fun em : Employee => em.debit col l.days) db.employees)
        (updateWhere (fun ll : Leave => ll.id == i) (setApproved now) db.leaves)
        ({ type := "leave_approved"
           message := "Your " ++ l.type ++ " leave request has been approved."
           user_id := some l.employee_id
           sender_id := l.employee_id
           sender_name := senderNameOf db l.employee_id x
           sender_photo := senderPhotoOf db l.employee_id
           created_at := now } :: db.notifications)
        db.nextId) := by
      unfold approveLeave
      rw [hl]
      simp only []
      rw [he]
      simp only []
      rw [if_neg (by rw [hs]; exact Bool.false_ne_true), hcol]
      simp only []
      rw [if_neg hnl]
    refine ⟨_, hok, ?_, rfl, rfl, ?_, ?_⟩
    · rw [find?_updateWhere_comm (fun ll : Leave => ll.id == i)
        (setApproved now) (fun ll : Leave => ll.id == i) (fun ll => rfl), hl]
      have hli : (l.id == i) = true := by simpa using List.find?_some hl
      simp only [Option.map_some', hli, if_true]
    · rw [find?_updateWhere_comm (fun em : Employee => em.employee_id == l.employee_id)
        (fun em : Employee => em.debit col l.days)
        (fun em : Employee => em.employee_id == l.employee_id)
        (fun em => by
          show ((em.debit col l.days).employee_id == l.employee_id) =
            (em.employee_id == l.employee_id)
          rw [debit_employee_id]), he]
      have hee : (e.employee_id == l.employee_id) = true := by
        simpa using List.find?_some he
      simp only [Option.map_some', hee, if_true]
    · rw [getBal_debit, if_pos rfl]
  · intro hlt
    have herr : approveLeave db i now x = .error .insufficientBalance := by
      unfold approveLeave
      rw [hl]
      simp only []
      rw [he]
      simp only []
      rw [if_neg (by rw [hs]; exact Bool.false_ne_true), hcol]
      simp only []
      rw [if_pos hlt]
    refine ⟨herr, ?_⟩
    unfold applyOp
    simp only []
    rw [herr]

/-- C3 witness: the spec's own scenario — an employee with
`cl_balance = 2` and a five-day CL request: approval fails with the
insufficient-balance error and the database is untouched. -/
theorem C3_approval_contract_witness :
    approveLeave dbC3 1 7 "web" = .error .insufficientBalance ∧
    applyOp dbC3 (.approve 1 7 "web") = dbC3 :=
  (C3_approval_contract dbC3 1 (mkLeaf 1 "E1" "CL" 5 "Pending" "" none none)
    { emp1 with cl_balance := 2 } 7 "web" .cl (by decide) (by decide)
    (by decide) (by decide)).2 (by decide)

theorem requestCancellation_ok (db : DB) (i : Nat) (eid reason : String)
    (now : Int) (x : String) (l : Leave)
    (h0 : db.leaves.find? (fun ll => ll.id == i && ll.employee_id == eid) = some l)
    (happ : (strLower l.status == "approved") = true)
    (hcrf : (strLower l.cancel_request_status == "pending") = false) :
    requestCancellation db i eid reason now x =
      .ok (reqCancelState db i eid reason now x) := by
  unfold requestCancellation reqCancelState
  rw [h0]
  simp only []
  rw [happ]
  simp only [Bool.not_true]
  rw [if_neg Bool.false_ne_true]
  rw [if_neg (by rw [hcrf]; exact Bool.false_ne_true)]

theorem rejectCancellation_ok (db : DB) (i : Nat) (remarks : String)
    (now : Int) (x : String) (l : Leave)
    (h0 : db.leaves.find? (fun ll => ll.id == i) = some l)
    (hcr : (strLower l.cancel_request_status == "pending") = true) :
    rejectCancellation db i remarks now x =
      .ok (rejCancelState db i remarks now x l.employee_id) := by
  unfold rejectCancellation rejCancelState
  rw [h0]
  simp only []
  rw [hcr]
  simp only [Bool.not_true]
  rw [if_neg Bool.false_ne_true]

/-- C4: the two-step cancellation state machine.  A request-cancellation
succeeds only while the request's status is Approved: on any
non-Approved request it fails with the only-approved-leaves error.  On
an Approved request it conflicts when a cancellation request is already
Pending; otherwise it succeeds, setting the sub-state to Pending (so an
immediate second request conflicts); an admin reject-cancellation on the
Pending sub-state sets it to Rejected while leaving the request's status
and every employee row (hence every balance) untouched; and after the
rejection a new request-cancellation succeeds, returning the sub-state
to Pending. -/
theorem C4_two_step_cancellation (db : DB) (i : Nat)
    (eid reason remarks : String) (now now2 now3 : Int) (x : String) (l : Leave)
    (hn : nodupIds db.leaves = true)
    (h0 : db.leaves.find? (fun ll => ll.id == i && ll.employee_id == eid) = some l) :
    ((strLower l.status == "approved") = false →
      requestCancellation db i eid reason now x =
        .error .onlyApprovedCancellable) ∧
    ((strLower l.status == "approved") = true →
    ((strLower l.cancel_request_status == "pending") = true →
      requestCancellation db i eid reason now x =
        .error .cancellationAlreadyRequested) ∧
    ((strLower l.cancel_request_status == "pending") = false →
      ∃ dbA, requestCancellation db i eid reason now x = .ok dbA ∧
        dbA.employees = db.employees ∧
        dbA.leaves.find? (fun ll => ll.id == i && ll.employee_id == eid) =
          some (setCancelRequested reason l) ∧
        (setCancelRequested reason l).cancel_request_status = "Pending" ∧
        requestCancellation dbA i eid reason now2 x =
          .error .cancellationAlreadyRequested ∧
        ∃ dbB, rejectCancellation dbA i remarks now2 x = .ok dbB ∧
          dbB.employees = dbA.employees ∧
          dbB.leaves.find? (fun ll => ll.id == i && ll.employee_id == eid) =
            some (setCancelVerdictRejected remarks (setCancelRequested reason l)) ∧
          (setCancelVerdictRejected remarks (setCancelRequested reason l)).status =
            l.status ∧
          (setCancelVerdictRejected remarks
            (setCancelRequested reason l)).cancel_request_status = "Rejected" ∧
          ∃ dbC, requestCancellation dbB i eid reason now3 x = .ok dbC ∧
            dbC.leaves.find? (fun ll => ll.id == i && ll.employee_id == eid) =
              some (setCancelRequested reason
                (setCancelVerdictRejected remarks (setCancelRequested reason l))))) := by
  have hli : (l.id == i) = true := by
    have := List.find?_some h0
    rw [Bool.and_eq_true] at this
    exact this.1
  have hmem := List.mem_of_find?_eq_some h0
  have hLp : db.leaves.find? (fun ll => ll.id == i) = some l :=
    find?_eq_some_of_unique _ _ _ (countP_id_le_one _ _ hn) hmem hli
  constructor
  · intro hsf
    unfold requestCancellation
    rw [h0]
    simp only []
    rw [hsf]
    simp only [Bool.not_false]
    rw [if_pos trivial]
  · intro happ
    constructor
    · intro hcr
      unfold requestCancellation
      rw [h0]
      simp only []
      rw [happ]
      simp only [Bool.not_true]
      rw [if_neg Bool.false_ne_true]
      rw [if_pos hcr]
    · intro hcrf
      have hfindA : (reqCancelState db i eid reason now x).leaves.find?
          (fun ll => ll.id == i && ll.employee_id == eid) =
          some (setCancelRequested reason l) := by
        show (updateWhere (fun ll => ll.id == i) (setCancelRequested reason)
          db.leaves).find? (fun ll => ll.id == i && ll.employee_id == eid) = _
        rw [find?_updateWhere_comm (fun ll : Leave => ll.id == i)
          (setCancelRequested reason)
          (fun ll : Leave => ll.id == i && ll.employee_id == eid) (fun ll => rfl), h0]
        simp only [Option.map_some', hli, if_true]
      have hfindAid : (reqCancelState db i eid reason now x).leaves.find?
          (fun ll => ll.id == i) = some (setCancelRequested reason l) := by
        show (updateWhere (fun ll => ll.id == i) (setCancelRequested reason)
          db.leaves).find? (fun ll => ll.id == i) = _
        rw [find?_updateWhere_comm (fun ll : Leave => ll.id == i)
          (setCancelRequested reason) (fun ll : Leave => ll.id == i)
          (fun ll => rfl), hLp]
        simp only [Option.map_some', hli, if_true]
      refine ⟨reqCancelState db i eid reason now x,
        requestCancellation_ok db i eid reason now x l h0 happ hcrf, rfl, hfindA,
        rfl, ?_, ?_⟩
      · unfold requestCancellation
        rw [hfindA]
        simp only [setCancelRequested]
        rw [happ]
        simp only [Bool.not_true]
        rw [if_neg Bool.false_ne_true]
        rw [if_pos (by decide : (strLower "Pending" == "pending") = true)]
      · have hfindB : (rejCancelState (reqCancelState db i eid reason now x) i
            remarks now2 x (setCancelRequested reason l).employee_id).leaves.find?
            (fun ll => ll.id == i && ll.employee_id == eid) =
            some (setCancelVerdictRejected remarks (setCancelRequested reason l)) := by
          show (updateWhere (fun ll => ll.id == i) (setCancelVerdictRejected remarks)
            (reqCancelState db i eid reason now x).leaves).find?
            (fun ll => ll.id == i && ll.employee_id == eid) = _
          rw [find?_updateWhere_comm (fun ll : Leave => ll.id == i)
            (setCancelVerdictRejected remarks)
            (fun ll : Leave => ll.id == i && ll.employee_id == eid)
            (fun ll => rfl), hfindA]
          simp only [setCancelRequested, Option.map_some', hli, if_true]
        refine ⟨rejCancelState (reqCancelState db i eid reason now x) i remarks
            now2 x (setCancelRequested reason l).employee_id,
          rejectCancellation_ok (reqCancelState db i eid reason now x) i remarks
            now2 x (setCancelRequested reason l) hfindAid
            (show (strLower "Pending" == "pending") = true by decide), rfl,
          hfindB, rfl, rfl, ?_⟩
        refine ⟨reqCancelState (rejCancelState (reqCancelState db i eid reason
            now x) i remarks now2 x (setCancelRequested reason l).employee_id)
            i eid reason now3 x,
          requestCancellation_ok _ i eid reason now3 x
            (setCancelVerdictRejected remarks (setCancelRequested reason l))
            hfindB happ
            (show (strLower "Rejected" == "pending") = false by decide), ?_⟩
        show (updateWhere (fun ll => ll.id == i) (setCancelRequested reason)
          (rejCancelState (reqCancelState db i eid reason now x) i remarks now2 x
            (setCancelRequested reason l).employee_id).leaves).find?
          (fun ll => ll.id == i && ll.employee_id == eid) = _
        rw [find?_updateWhere_comm (fun ll : Leave => ll.id == i)
          (setCancelRequested reason)
          (fun ll : Leave => ll.id == i && ll.employee_id == eid)
          (fun ll => rfl), hfindB]
        simp only [setCancelRequested, setCancelVerdictRejected, Option.map_some',
          hli, if_true]

/-- C4 witness: a request-cancellation on a Cancelled request fails with
the only-approved-leaves error, and on an Approved request whose
cancellation request is already Pending it fails with the conflict
error. -/
theorem C4_two_step_cancellation_witness :
    requestCancellation dbC10 1 "E1" "again" 8 "web" =
      .error .onlyApprovedCancellable ∧
    requestCancellation dbC4 1 "E1" "again" 8 "web" =
      .error .cancellationAlreadyRequested :=
  ⟨(C4_two_step_cancellation dbC10 1 "E1" "again" "rm" 8 9 10 "web"
      (mkLeaf 1 "E1" "CL" 5 "Cancelled" "" (some 0) none) (by decide)
      (by decide)).1 (by decide),
    ((C4_two_step_cancellation dbC4 1 "E1" "again" "rm" 8 9 10 "web"
      (mkLeaf 1 "E1" "CL" 2 "Approved" "Pending" (some 0) (some 999999999999))
      (by decide) (by decide)).2 (by decide)).1 (by decide)⟩

/-- C5 (counterexample): submission is not atomic.  With a valid
employee, if the leave INSERT succeeds and the notification INSERT then
fails, the handler returns an error yet the created request remains
persisted and no notification exists — the two writes are separate
autocommitted queries, not one atomic unit. -/
theorem C5_counterexample :
    (submitLeave db1 "E1" "CL" (some 0) (some msPerDay) "trip" "HQ" 5 "web"
      true false).2 = .error .storeFailure ∧
    (submitLeave db1 "E1" "CL" (some 0) (some msPerDay) "trip" "HQ" 5 "web"
      true false).1.leaves.length = 1 ∧
    (submitLeave db1 "E1" "CL" (some 0) (some msPerDay) "trip" "HQ" 5 "web"
      true false).1.notifications.length = 0 :=
  ⟨rfl, by decide, by decide⟩

/-- C5 (amended): the two submission writes fail independently.  If the
leave INSERT fails nothing is persisted and the call errors; if the
leave INSERT succeeds and the notification INSERT fails, the call errors
but the new request row is already committed while no notification is —
submission is not an atomic unit. -/
theorem C5_submission_not_atomic (db : DB) (eid t : String) (s e : Option Int)
    (r loc : String) (now : Int) (x : String) (emp : Employee) (notifOk : Bool)
    (hE : db.employees.find? (fun em => em.employee_id == eid) = some emp)
    (hdes : (emp.designation == "") = false) :
    (submitLeave db eid t s e r loc now x false notifOk =
      (db, .error .storeFailure)) ∧
    ((submitLeave db eid t s e r loc now x true false).1.leaves =
        db.leaves ++ [newLeaf db eid t s e r loc now emp] ∧
      (submitLeave db eid t s e r loc now x true false).1.notifications =
        db.notifications ∧
      (submitLeave db eid t s e r loc now x true false).2 =
        .error .storeFailure) := by
  constructor
  · unfold submitLeave
    rw [hE]
    simp only []
    rw [if_neg (by rw [hdes]; exact Bool.false_ne_true)]
    rfl
  · unfold submitLeave
    rw [hE]
    simp only []
    rw [if_neg (by rw [hdes]; exact Bool.false_ne_true)]
    exact ⟨rfl, rfl, rfl⟩

/-- C5 witness: the amended behaviour on the sample database. -/
theorem C5_submission_not_atomic_witness :
    submitLeave db1 "E1" "CL" (some 0) (some msPerDay) "trip" "HQ" 5 "web"
      false true = (db1, .error .storeFailure) ∧
    (submitLeave db1 "E1" "CL" (some 0) (some msPerDay) "trip" "HQ" 5 "web"
      true false).1.leaves =
      db1.leaves ++ [newLeaf db1 "E1" "CL" (some 0) (some msPerDay) "trip" "HQ" 5 emp1] :=
  ⟨(C5_submission_not_atomic db1 "E1" "CL" (some 0) (some msPerDay) "trip"
      "HQ" 5 "web" emp1 true (by decide) (by decide)).1,
    (C5_submission_not_atomic db1 "E1" "CL" (some 0) (some msPerDay) "trip"
      "HQ" 5 "web" emp1 true (by decide) (by decide)).2.1⟩

/-- C6: the guarded cancel-approved window.  For an existing Approved
request (with its approved date and start date present): if more than 12
hours have passed since approval the call fails with the window-expired
error and mutates nothing; if the window is open but the leave has
already started (start date not strictly in the future) it fails with
the already-started error and mutates nothing; if both guards hold and
the type maps to a balance column, the request becomes Cancelled and
that balance column is restored by `+days`. -/
theorem C6_guarded_cancel_window (db : DB) (i : Nat) (eid reason : String)
    (today : Int) (l : Leave) (ad sd : Int) (e : Employee) (col : BalCol)
    (hn : nodupIds db.leaves = true)
    (hl : db.leaves.find? (fun ll => ll.id == i && ll.employee_id == eid &&
      ll.status == "Approved") = some l)
    (had : l.approved_date = some ad)
    (hsd : l.start_date = some sd)
    (heid : (eid == "") = false) :
    (today - ad > msWindow →
      cancelApproved db (some i) (some eid) reason today = .error .windowExpired ∧
      applyOp db (.cancelApproved i eid reason today) = db) ∧
    (today - ad ≤ msWindow → sd ≤ today →
      cancelApproved db (some i) (some eid) reason today = .error .alreadyStarted ∧
      applyOp db (.cancelApproved i eid reason today) = db) ∧
    (today - ad ≤ msWindow → today < sd → balanceColumnUpper l.type = some col →
      db.employees.find? (fun em => em.employee_id == eid) = some e →
      ∃ db', cancelApproved db (some i) (some eid) reason today = .ok db' ∧
        (db'.leaves.find? fun ll => ll.id == i && ll.employee_id == eid) =
          some (setCancelledGuarded reason today l) ∧
        (setCancelledGuarded reason today l).status = "Cancelled" ∧
        (db'.employees.find? fun em => em.employee_id == eid) =
          some (e.credit col l.days) ∧
        (e.credit col l.days).getBal col = e.getBal col + l.days) := by
  refine ⟨?_, ?_, ?_⟩
  · intro hw
    have herr : cancelApproved db (some i) (some eid) reason today =
        .error .windowExpired := by
      unfold cancelApproved
      simp only []
      rw [if_neg (by rw [heid]; exact Bool.false_ne_true), hl]
      simp only []
      rw [had]
      simp only []
      rw [if_pos hw]
    refine ⟨herr, ?_⟩
    unfold applyOp
    simp only []
    rw [herr]
  · intro hw hstarted
    have herr : cancelApproved db (some i) (some eid) reason today =
        .error .alreadyStarted := by
      unfold cancelApproved
      simp only []
      rw [if_neg (by rw [heid]; exact Bool.false_ne_true), hl]
      simp only []
      rw [had]
      simp only []
      rw [if_neg (not_lt.mpr hw), hsd]
      simp only [Option.getD_some]
      rw [if_pos hstarted]
    refine ⟨herr, ?_⟩
    unfold applyOp
    simp only []
    rw [herr]
  · intro hw hfuture hupcol hE
    have hnl : ¬sd ≤ today := not_le.mpr hfuture
    have hok : cancelApproved db (some i) (some eid) reason today = .ok (DB.mk
        (updateWhere (fun em : Employee => em.employee_id == eid)
          (fun em : Employee => em.credit col l.days) db.employees)
        (updateWhere (fun ll : Leave => ll.id == i && ll.employee_id == eid)
          (setCancelledGuarded reason today) db.leaves)
        ({ type := "leave_cancelled"
           message := "Leave request has been cancelled by employee " ++ eid
           user_id := some "1"
           sender_id := eid
           sender_name := eid
           sender_photo := none
           created_at := today } :: db.notifications)
        db.nextId) := by
      unfold cancelApproved
      simp only []
      rw [if_neg (by rw [heid]; exact Bool.false_ne_true), hl]
      simp only []
      rw [had]
      simp only []
      rw [if_neg (not_lt.mpr hw), hsd]
      simp only [Option.getD_some]
      rw [if_neg hnl, hupcol]
    have hli : (l.id == i && l.employee_id == eid) = true := by
      have := List.find?_some hl
      rw [Bool.and_eq_true, Bool.and_eq_true] at this
      rw [Bool.and_eq_true]
      exact this.1
    have hl2 : db.leaves.find? (fun ll => ll.id == i && ll.employee_id == eid) =
        some l := by
      refine find?_eq_some_of_unique _ _ _ ?_ (List.mem_of_find?_eq_some hl) hli
      refine le_trans (countP_le_of_imp _ (fun ll => ll.id == i) _ ?_)
        (countP_id_le_one _ _ hn)
      intro ll hll
      rw [Bool.and_eq_true] at hll
      exact hll.1
    refine ⟨_, hok, ?_, rfl, ?_, ?_⟩
    · rw [find?_updateWhere_comm
        (fun ll : Leave => ll.id == i && ll.employee_id == eid)
        (setCancelledGuarded reason today)
        (fun ll : Leave => ll.id == i && ll.employee_id == eid)
        (fun ll => rfl), hl2]
      simp only [Option.map_some', hli, if_true]
    · rw [find?_updateWhere_comm (fun em : Employee => em.employee_id == eid)
        (fun em : Employee => em.credit col l.days)
        (fun em : Employee => em.employee_id == eid)
        (fun em => by
          show ((em.credit col l.days).employee_id == eid) = (em.employee_id == eid)
          rw [credit_employee_id]), hE]
      have hee : (e.employee_id == eid) = true := by
        simpa using List.find?_some hE
      simp only [Option.map_some', hee, if_true]
    · rw [getBal_credit, if_pos rfl]

/-- C6 witness: the spec's scenario — a request approved 13 hours ago
(approved at time 0, called at 13h in milliseconds) is refused with the
window-expired error and nothing is mutated. -/
theorem C6_guarded_cancel_window_witness :
    cancelApproved dbC6 (some 1) (some "E1") "" 46800000 =
      .error .windowExpired ∧
    applyOp dbC6 (.cancelApproved 1 "E1" "" 46800000) = dbC6 :=
  (C6_guarded_cancel_window dbC6 1 "E1" "" 46800000
    (mkLeaf 1 "E1" "CL" 2 "Approved" "" (some 0) (some 999999999999))
    0 999999999999 emp1 .cl (by decide) (by decide) (by decide) (by decide)
    (by decide)).1 (by decide)

/-- C7 (counterexample): an Inactive employee with a designation on file
submits successfully — the handler never reads the employee's status, so
the claim's "an Inactive employee can never create a Pending leave
request" is false. -/
theorem C7_counterexample :
    empInactive.status = "Inactive" ∧
    (submitLeave dbInactive "E2" "CL" (some 0) (some msPerDay) "trip" "HQ" 5
      "web" true true).2 =
      .ok (newLeaf dbInactive "E2" "CL" (some 0) (some msPerDay) "trip" "HQ" 5
        empInactive) ∧
    (newLeaf dbInactive "E2" "CL" (some 0) (some msPerDay) "trip" "HQ" 5
      empInactive).status = "Pending" ∧
    (submitLeave dbInactive "E2" "CL" (some 0) (some msPerDay) "trip" "HQ" 5
      "web" true true).1.leaves.length = 1 :=
  ⟨rfl, rfl, rfl, by decide⟩

/-- C7 (amended): the submission preconditions the handler actually
enforces.  A missing employee fails with the not-found error and an
empty designation fails with the validation error, both leaving the
database untouched; the employee's Active/Inactive status is never
consulted, so an Inactive employee with a designation creates a Pending
request like any other. -/
theorem C7_submission_preconditions (db : DB) (eid t : String)
    (s e : Option Int) (r loc : String) (now : Int) (x : String) :
    (db.employees.find? (fun em => em.employee_id == eid) = none →
      submitLeave db eid t s e r loc now x true true =
        (db, .error .employeeNotFound)) ∧
    (∀ emp, db.employees.find? (fun em => em.employee_id == eid) = some emp →
      emp.designation = "" →
      submitLeave db eid t s e r loc now x true true =
        (db, .error .designationMissing)) ∧
    (∀ emp, db.employees.find? (fun em => em.employee_id == eid) = some emp →
      (emp.designation == "") = false → emp.status = "Inactive" →
      (submitLeave db eid t s e r loc now x true true).2 =
        .ok (newLeaf db eid t s e r loc now emp) ∧
      (newLeaf db eid t s e r loc now emp).status = "Pending" ∧
      newLeaf db eid t s e r loc now emp ∈
        (submitLeave db eid t s e r loc now x true true).1.leaves) := by
  refine ⟨?_, ?_, ?_⟩
  · intro hE
    unfold submitLeave
    rw [hE]
  · intro emp hE hdes
    unfold submitLeave
    rw [hE]
    simp only []
    rw [if_pos (by rw [hdes]; rfl)]
  · intro emp hE hdes _
    unfold submitLeave
    rw [hE]
    simp only []
    rw [if_neg (by rw [hdes]; exact Bool.false_ne_true)]
    refine ⟨rfl, rfl, ?_⟩
    show newLeaf db eid t s e r loc now emp ∈
      db.leaves ++ [newLeaf db eid t s e r loc now emp]
    exact List.mem_append_right _ (List.mem_singleton.mpr rfl)

/-- C7 witness: submitting for an unknown employee id fails with the
not-found error. -/
theorem C7_submission_preconditions_witness :
    submitLeave db1 "NOPE" "CL" (some 0) (some msPerDay) "trip" "HQ" 5 "web"
      true true = (db1, .error .employeeNotFound) :=
  (C7_submission_preconditions db1 "NOPE" "CL" (some 0) (some msPerDay) "trip"
    "HQ" 5 "web").1 (by decide)

/-- C8: reject frame property.  For any existing request — whatever its
current status, there is no state guard — the reject call succeeds, sets
status to Rejected, sets the rejected date, stores the remarks, and
leaves the employees table (hence every balance column of every
employee) completely unchanged. -/
theorem C8_reject_frame (db : DB) (i : Nat) (remarks : String) (now : Int)
    (x : String) (l : Leave)
    (hl : db.leaves.find? (fun ll => ll.id == i) = some l) :
    ∃ db', rejectLeave db i remarks now x = .ok db' ∧
      db'.employees = db.employees ∧
      (db'.leaves.find? fun ll => ll.id == i) = some (setRejected remarks now l) ∧
      (setRejected remarks now l).status = "Rejected" ∧
      (setRejected remarks now l).rejected_date = some now ∧
      (setRejected remarks now l).remarks = remarks := by
  have hany : (db.leaves.any fun ll => ll.id == i) = true := by
    rw [List.any_eq_true]
    refine ⟨l, List.mem_of_find?_eq_some hl, ?_⟩
    simpa using List.find?_some hl
  have hok : rejectLeave db i remarks now x = .ok (DB.mk db.employees
      (updateWhere (fun ll : Leave => ll.id == i) (setRejected remarks now)
        db.leaves)
      ({ type := "leave_rejected"
         message := "Your leave request has been rejected. " ++ remarks
         user_id := some l.employee_id
         sender_id := l.employee_id
         sender_name := senderNameOf db l.employee_id x
         sender_photo := senderPhotoOf db l.employee_id
         created_at := now } :: db.notifications)
      db.nextId) := by
    unfold rejectLeave
    rw [if_pos hany, hl]
    rfl
  refine ⟨_, hok, rfl, ?_, rfl, rfl, rfl⟩
  rw [find?_updateWhere_comm (fun ll : Leave => ll.id == i)
    (setRejected remarks now) (fun ll : Leave => ll.id == i)
    (fun ll => rfl), hl]
  have hli : (l.id == i) = true := by simpa using List.find?_some hl
  simp only [Option.map_some', hli, if_true]

/-- C8 witness: rejecting an already-Approved request succeeds (no state
guard) and leaves the employees table unchanged. -/
theorem C8_reject_frame_witness :
    ∃ db', rejectLeave dbC8 1 "changed my mind" 9 "web" = .ok db' ∧
      db'.employees = dbC8.employees ∧
      (db'.leaves.find? fun ll => ll.id == 1) =
        some (setRejected "changed my mind" 9
          (mkLeaf 1 "E1" "CL" 2 "Approved" "" (some 0) (some 5))) ∧
      (setRejected "changed my mind" 9
        (mkLeaf 1 "E1" "CL" 2 "Approved" "" (some 0) (some 5))).status =
        "Rejected" ∧
      (setRejected "changed my mind" 9
        (mkLeaf 1 "E1" "CL" 2 "Approved" "" (some 0) (some 5))).rejected_date =
        some 9 ∧
      (setRejected "changed my mind" 9
        (mkLeaf 1 "E1" "CL" 2 "Approved" "" (some 0) (some 5))).remarks =
        "changed my mind" :=
  C8_reject_frame dbC8 1 "changed my mind" 9 "web"
    (mkLeaf 1 "E1" "CL" 2 "Approved" "" (some 0) (some 5)) (by decide)

/-- C10 (implicit claim from the code): the approve guard only blocks a
currently-Approved status, so a request in the terminal states Rejected
or Cancelled can be approved (again) whenever its type maps to a column
and the owner's balance suffices: status returns to Approved and the
balance column is debited by `days` once more — a Cancelled request can
be re-approved and produce a second debit. -/
theorem C10_reapprove_after_terminal (db : DB) (i : Nat) (now : Int)
    (x : String) (l : Leave) (e : Employee) (col : BalCol)
    (hl : db.leaves.find? (fun ll => ll.id == i) = some l)
    (hterm : l.status = "Rejected" ∨ l.status = "Cancelled")
    (hcol : balanceColumn l.type = some col)
    (he : db.employees.find? (fun em => em.employee_id == l.employee_id) = some e)
    (hbal : l.days ≤ e.getBal col) :
    ∃ db', approveLeave db i now x = .ok db' ∧
      (db'.leaves.find? fun ll => ll.id == i) = some (setApproved now l) ∧
      (setApproved now l).status = "Approved" ∧
      (db'.employees.find? fun em => em.employee_id == l.employee_id) =
        some (e.debit col l.days) ∧
      (e.debit col l.days).getBal col = e.getBal col - l.days := by
  have hs : (strLower (strTrim l.status) == "approved") = false := by
    rcases hterm with hst | hst <;> rw [hst] <;> decide
  have hnl : ¬e.getBal col < l.days := not_lt.mpr hbal
  have hok : approveLeave db i now x = .ok (DB.mk
      (updateWhere (fun em : Employee => em.employee_id == l.employee_id)
        (fun em : Employee => em.debit col l.days) db.employees)
      (updateWhere (fun ll : Leave => ll.id == i) (setApproved now) db.leaves)
      ({ type := "leave_approved"
         message := "Your " ++ l.type ++ " leave request has been approved."
         user_id := some l.employee_id
         sender_id := l.employee_id
         sender_name := senderNameOf db l.employee_id x
         sender_photo := senderPhotoOf db l.employee_id
         created_at := now } :: db.notifications)
      db.nextId) := by
    unfold approveLeave
    rw [hl]
    simp only []
    rw [he]
    simp only []
    rw [if_neg (by rw [hs]; exact Bool.false_ne_true), hcol]
    simp only []
    rw [if_neg hnl]
  refine ⟨_, hok, ?_, rfl, ?_, ?_⟩
  · rw [find?_updateWhere_comm (fun ll : Leave => ll.id == i)
      (setApproved now) (fun ll : Leave => ll.id == i) (fun ll => rfl), hl]
    have hli : (l.id == i) = true := by simpa using List.find?_some hl
    simp only [Option.map_some', hli, if_true]
  · rw [find?_updateWhere_comm (fun em : Employee => em.employee_id == l.employee_id)
      (fun em : Employee => em.debit col l.days)
      (fun em : Employee => em.employee_id == l.employee_id)
      (fun em => by
        show ((em.debit col l.days).employee_id == l.employee_id) =
          (em.employee_id == l.employee_id)
        rw [debit_employee_id]), he]
    have hee : (e.employee_id == l.employee_id) = true := by
      simpa using List.find?_some he
    simp only [Option.map_some', hee, if_true]
  · rw [getBal_debit, if_pos rfl]

/-- C10 witness: a Cancelled five-day CL request is approved again and
the owner's `cl_balance` is debited from 16 to 11. -/
theorem C10_reapprove_after_terminal_witness :
    ∃ db', approveLeave dbC10 1 77 "web" = .ok db' ∧
      (db'.leaves.find? fun ll => ll.id == 1) =
        some (setApproved 77 (mkLeaf 1 "E1" "CL" 5 "Cancelled" "" (some 0) none)) ∧
      (setApproved 77 (mkLeaf 1 "E1" "CL" 5 "Cancelled" "" (some 0) none)).status =
        "Approved" ∧
      (db'.employees.find? fun em => em.employee_id == "E1") =
        some (emp1.debit .cl 5) ∧
      (emp1.debit .cl 5).getBal .cl = emp1.getBal .cl - 5 :=
  C10_reapprove_after_terminal dbC10 1 77 "web"
    (mkLeaf 1 "E1" "CL" 5 "Cancelled" "" (some 0) none) emp1 .cl (by decide)
    (Or.inr (by decide)) (by decide) (by decide) (by decide)

theorem applyOp_daysMap (d : DB) (op : Op) :
    ∃ rest, daysMap (applyOp d op) = daysMap d ++ rest := by
  cases op with
  | submit eid t s e r loc now x =>
    unfold applyOp
    simp only []
    unfold submitLeave
    cases hE : d.employees.find? fun em => em.employee_id == eid with
    | none => exact ⟨[], by rw [List.append_nil]⟩
    | some emp =>
      simp only []
      by_cases hdes : (emp.designation == "") = true
      · rw [if_pos hdes]
        exact ⟨[], by rw [List.append_nil]⟩
      · rw [if_neg hdes]
        refine ⟨[((newLeaf d eid t s e r loc now emp).id,
          (newLeaf d eid t s e r loc now emp).days)], ?_⟩
        show daysMap (DB.mk d.employees
          (d.leaves ++ [newLeaf d eid t s e r loc now emp]) _ _) = _
        unfold daysMap
        rw [List.map_append]
        rfl
  | approve i now x =>
    unfold applyOp
    simp only []
    cases hres : approveLeave d i now x with
    | error err => exact ⟨[], by rw [List.append_nil]⟩
    | ok db' =>
      refine ⟨[], ?_⟩
      rw [List.append_nil]
      unfold approveLeave at hres
      cases hL : d.leaves.find? fun l => l.id == i with
      | none => rw [hL] at hres; exact absurd hres (by simp)
      | some leave =>
      rw [hL] at hres
      simp only [] at hres
      cases hE1 : d.employees.find? fun e => e.employee_id == leave.employee_id with
      | none => rw [hE1] at hres; exact absurd hres (by simp)
      | some e1 =>
      rw [hE1] at hres
      simp only [] at hres
      by_cases hs : (strLower (strTrim leave.status) == "approved") = true
      · rw [if_pos hs] at hres; exact absurd hres (by simp)
      rw [if_neg hs] at hres
      cases hc : balanceColumn leave.type with
      | none => rw [hc] at hres; exact absurd hres (by simp)
      | some col =>
      rw [hc] at hres
      simp only [] at hres
      by_cases hb : e1.getBal col < leave.days
      · rw [if_pos hb] at hres; exact absurd hres (by simp)
      rw [if_neg hb] at hres
      simp only [Except.ok.injEq] at hres
      subst hres
      unfold daysMap
      exact (map_updateWhere_eq (fun l => l.id == i) (setApproved now)
        (fun l => (l.id, l.days)) (fun l => rfl) d.leaves).symm ▸ rfl
  | cancel i now =>
    unfold applyOp
    simp only []
    cases hres : cancelLeave d i now with
    | error err => exact ⟨[], by rw [List.append_nil]⟩
    | ok db' =>
      refine ⟨[], ?_⟩
      rw [List.append_nil]
      unfold cancelLeave at hres
      cases hL : d.leaves.find? fun l => l.id == i with
      | none => rw [hL] at hres; exact absurd hres (by simp)
      | some leave =>
      rw [hL] at hres
      simp only [] at hres
      by_cases hcanc : (leave.status == "Cancelled") = true
      · rw [if_pos hcanc] at hres; exact absurd hres (by simp)
      rw [if_neg hcanc] at hres
      by_cases happ : (leave.status == "Approved") = true
      · rw [if_pos happ] at hres
        cases hc : balanceColumn leave.type with
        | none => rw [hc] at hres; exact absurd hres (by simp)
        | some col =>
        rw [hc] at hres
        simp only [Except.ok.injEq] at hres
        subst hres
        unfold daysMap
        exact map_updateWhere_eq (fun l => l.id == i) (setCancelledDirect now)
          (fun l => (l.id, l.days)) (fun l => rfl) d.leaves
      · rw [if_neg happ] at hres
        simp only [Except.ok.injEq] at hres
        subst hres
        unfold daysMap
        exact map_updateWhere_eq (fun l => l.id == i) (setCancelledDirect now)
          (fun l => (l.id, l.days)) (fun l => rfl) d.leaves
  | cancelApproved i eid r today =>
    unfold applyOp
    simp only []
    cases hres : cancelApproved d (some i) (some eid) r today with
    | error err => exact ⟨[], by rw [List.append_nil]⟩
    | ok db' =>
      refine ⟨[], ?_⟩
      rw [List.append_nil]
      unfold cancelApproved at hres
      simp only [] at hres
      by_cases heid : (eid == "") = true
      · rw [if_pos heid] at hres; exact absurd hres (by simp)
      rw [if_neg heid] at hres
      cases hL : d.leaves.find?
          (fun l => l.id == i && l.employee_id == eid && l.status == "Approved") with
      | none => rw [hL] at hres; exact absurd hres (by simp)
      | some leave =>
      rw [hL] at hres
      simp only [] at hres
      cases had : leave.approved_date with
      | none => rw [had] at hres; exact absurd hres (by simp)
      | some ad =>
      rw [had] at hres
      simp only [] at hres
      by_cases hw : today - ad > msWindow
      · rw [if_pos hw] at hres; exact absurd hres (by simp)
      rw [if_neg hw] at hres
      by_cases hst : leave.start_date.getD 0 ≤ today
      · rw [if_pos hst] at hres; exact absurd hres (by simp)
      rw [if_neg hst] at hres
      simp only [Except.ok.injEq] at hres
      subst hres
      unfold daysMap
      exact map_updateWhere_eq (fun l => l.id == i && l.employee_id == eid)
        (setCancelledGuarded r today) (fun l => (l.id, l.days)) (fun l => rfl)
        d.leaves
  | requestCancel i eid r now x =>
    unfold applyOp
    simp only []
    cases hres : requestCancellation d i eid r now x with
    | error err => exact ⟨[], by rw [List.append_nil]⟩
    | ok db' =>
      refine ⟨[], ?_⟩
      rw [List.append_nil]
      unfold requestCancellation at hres
      cases hL : d.leaves.find? fun l => l.id == i && l.employee_id == eid with
      | none => rw [hL] at hres; exact absurd hres (by simp)
      | some leave =>
      rw [hL] at hres
      simp only [] at hres
      cases hs : strLower leave.status == "approved" with
      | false => rw [hs] at hres; exact absurd hres (by simp)
      | true =>
      rw [hs] at hres
      simp only [Bool.not_true] at hres
      rw [if_neg Bool.false_ne_true] at hres
      by_cases hcr : (strLower leave.cancel_request_status == "pending") = true
      · rw [if_pos hcr] at hres; exact absurd hres (by simp)
      rw [if_neg hcr] at hres
      simp only [Except.ok.injEq] at hres
      subst hres
      unfold daysMap
      exact map_updateWhere_eq (fun l => l.id == i) (setCancelRequested r)
        (fun l => (l.id, l.days)) (fun l => rfl) d.leaves
  | approveCancel i now x =>
    unfold applyOp
    simp only []
    cases hres : approveCancellation d i now x with
    | error err => exact ⟨[], by rw [List.append_nil]⟩
    | ok db' =>
      refine ⟨[], ?_⟩
      rw [List.append_nil]
      unfold approveCancellation at hres
      cases hL : d.leaves.find? fun l => l.id == i with
      | none => rw [hL] at hres; exact absurd hres (by simp)
      | some leave =>
      rw [hL] at hres
      simp only [] at hres
      cases hcr : strLower leave.cancel_request_status == "pending" with
      | false => rw [hcr] at hres; exact absurd hres (by simp)
      | true =>
      rw [hcr] at hres
      simp only [Bool.not_true] at hres
      rw [if_neg Bool.false_ne_true] at hres
      simp only [Except.ok.injEq] at hres
      subst hres
      unfold daysMap
      exact map_updateWhere_eq (fun l => l.id == i) (setCancelVerdictApproved now)
        (fun l => (l.id, l.days)) (fun l => rfl) d.leaves
  | rejectCancel i r now x =>
    unfold applyOp
    simp only []
    cases hres : rejectCancellation d i r now x with
    | error err => exact ⟨[], by rw [List.append_nil]⟩
    | ok db' =>
      refine ⟨[], ?_⟩
      rw [List.append_nil]
      unfold rejectCancellation at hres
      cases hL : d.leaves.find? fun l => l.id == i with
      | none => rw [hL] at hres; exact absurd hres (by simp)
      | some leave =>
      rw [hL] at hres
      simp only [] at hres
      cases hcr : strLower leave.cancel_request_status == "pending" with
      | false => rw [hcr] at hres; exact absurd hres (by simp)
      | true =>
      rw [hcr] at hres
      simp only [Bool.not_true] at hres
      rw [if_neg Bool.false_ne_true] at hres
      simp only [Except.ok.injEq] at hres
      subst hres
      unfold daysMap
      exact map_updateWhere_eq (fun l => l.id == i) (setCancelVerdictRejected r)
        (fun l => (l.id, l.days)) (fun l => rfl) d.leaves

/-- C9: days computation.  A submission with both dates present stores
`days = floor((end − start) / msPerDay) + 1` — the number of whole days
in the inclusive span plus one — computed once at submission; and no
operation ever changes the `days` (or id) of an existing row: every
operation's result projects to the old `(id, days)` table extended only
by appended rows. -/
theorem C9_days_inclusive (db : DB) (eid t : String) (s e : Int)
    (r loc : String) (now : Int) (x : String) (emp : Employee)
    (hE : db.employees.find? (fun em => em.employee_id == eid) = some emp)
    (hdes : (emp.designation == "") = false) :
    ((submitLeave db eid t (some s) (some e) r loc now x true true).2 =
        .ok (newLeaf db eid t (some s) (some e) r loc now emp) ∧
      (newLeaf db eid t (some s) (some e) r loc now emp).days =
        Int.fdiv (e - s) msPerDay + 1) ∧
    ∀ (d : DB) (op : Op), ∃ rest, daysMap (applyOp d op) = daysMap d ++ rest := by
  refine ⟨⟨?_, rfl⟩, applyOp_daysMap⟩
  unfold submitLeave
  rw [hE]
  simp only []
  rw [if_neg (by rw [hdes]; exact Bool.false_ne_true)]
  rfl

/-- C9 witness: the spec's example — a request spanning 2024-01-10 to
2024-01-12 (UTC-midnight millisecond timestamps) stores `days = 3`. -/
theorem C9_days_inclusive_witness :
    (submitLeave db1 "E1" "CL" (some 1704844800000) (some 1705017600000)
      "trip" "HQ" 5 "web" true true).2 =
      .ok (newLeaf db1 "E1" "CL" (some 1704844800000) (some 1705017600000)
        "trip" "HQ" 5 emp1) ∧
    (newLeaf db1 "E1" "CL" (some 1704844800000) (some 1705017600000)
      "trip" "HQ" 5 emp1).days = 3 :=
  ⟨(C9_days_inclusive db1 "E1" "CL" 1704844800000 1705017600000 "trip" "HQ" 5
      "web" emp1 (by decide) (by decide)).1.1, by decide⟩

end Buidco
